import Mathlib

/-!
Verification of the Ymir emulator core: memory bus, SH2 block cache,
interrupt controller.

Shallow embedding of `ymir::sys::Bus` (include/ymir/sys/bus.hpp) and the
SH2 block-cache / interrupt machinery (src/ymir/hw/sh2/sh2.cpp), with
theorems checking the natural-language specification against the code.

Machine integers are modelled as `Nat` with explicit masking where the
source masks; external function pointers (bus handlers, the write
observer) are modelled as abstract identifiers plus an event trace.
-/

namespace Ymir

/-!
Bus model: `ymir::sys::Bus<addressBits, pageGranularityBits>`, instantiated
in the source as `SH2Bus = Bus<27, 16>` (bus.hpp line 436).  The page table
is modelled as a total function from page index to `MemoryPage`; handler
slots hold `Option Nat` where `none` is the no-op default lambda from the
`MemoryPage` initializers, and `some h` is an installed function pointer
identified by the abstract id `h`.
-/

/-- Number of valid address bits of the SH2 bus (`SH2Bus = Bus<27, 16>`). -/
def kAddressBits : Nat := 27

/-- Page granularity bits of the SH2 bus (`SH2Bus = Bus<27, 16>`). -/
def kPageGranularityBits : Nat := 16

/-- `kAddressMask = (1u << addressBits) - 1` (bus.hpp line 57). -/
def kAddressMask : Nat := 2 ^ kAddressBits - 1

/-- `kPageSize = 1u << pageGranularityBits` (bus.hpp line 58). -/
def kPageSize : Nat := 2 ^ kPageGranularityBits

/-- `kPageMask = kPageSize - 1` (bus.hpp line 59). -/
def kPageMask : Nat := kPageSize - 1

/-- `kPageCount = 1u << (addressBits - pageGranularityBits)` (bus.hpp line 60). -/
def kPageCount : Nat := 2 ^ (kAddressBits - kPageGranularityBits)

/-- One handler set: the six normal and six side-effect-free
read/write function-pointer slots plus the bus-wait predicate of
`MemoryPage` (bus.hpp lines 352-368). `none` models the default no-op
lambda installed by the initializers. -/
structure HandlerSet where
  read8 : Option Nat := none
  read16 : Option Nat := none
  read32 : Option Nat := none
  write8 : Option Nat := none
  write16 : Option Nat := none
  write32 : Option Nat := none
  peek8 : Option Nat := none
  peek16 : Option Nat := none
  peek32 : Option Nat := none
  poke8 : Option Nat := none
  poke16 : Option Nat := none
  poke32 : Option Nat := none
  busWait : Option Nat := none
  deriving DecidableEq, Repr

/-- `ymir::sys::Bus::MemoryPage` (bus.hpp lines 342-372).  `array = some
base` models a non-null backing-array pointer to abstract byte address
`base`; `none` models `nullptr`.  `readCycles`/`writeCycles` default to 1
as in the source initializers. -/
structure MemoryPage where
  array : Option Nat := none
  arrayWritable : Bool := false
  ctx : Option Nat := none
  handlers : HandlerSet := {}
  readCycles : Nat := 1
  writeCycles : Nat := 1
  deriving DecidableEq, Repr

/-- The bus state: `m_pages` plus the write-observer registration
(bus.hpp lines 375-378) and the byte store backing all mapped arrays
(an abstract flat memory addressed by pointer value). -/
structure BusState where
  pages : Nat → MemoryPage
  writeObserver : Option Nat := none
  mem : Nat → Nat

/-- Bus construction: all pages default-initialized. -/
def initialBus (mem0 : Nat → Nat) : BusState where
  pages := fun _ => {}
  writeObserver := none
  mem := mem0

/-- `address &= kAddressMask & ~(sizeof(T) - 1)` (bus.hpp lines 181, 206,
241, 266): mask to the valid address range and align down to the access
size (sizes are powers of two). -/
def maskAlign (address size : Nat) : Nat :=
  (address &&& kAddressMask) / size * size

/-- Page index of a masked address: `address >> pageGranularityBits`. -/
def pageIndex (address : Nat) : Nat :=
  address >>> kPageGranularityBits

/-- `util::WriteBE<T>`: store `size` bytes of `value` big-endian at byte
pointer `ptr` in the flat store. -/
def writeBE (mem : Nat → Nat) (ptr size value : Nat) : Nat → Nat :=
  fun a =>
    if ptr ≤ a ∧ a < ptr + size then
      value / 256 ^ (size - 1 - (a - ptr)) % 256
    else
      mem a

/-- Observable events of one bus access: calls into external function
pointers.  `handlerWrite` records the invocation of a page write/poke
handler slot (the slot content, `none` meaning the default no-op lambda);
`observerCall` records an invocation of the global write observer with
its three arguments (bus.hpp lines 214, 231, 274, 291). -/
inductive BusEvent where
  | handlerWrite (slot : Option Nat) (address value size : Nat) (ctx : Option Nat)
  | observerCall (address size : Nat) (poke : Bool)
  deriving DecidableEq, Repr

/-- The write-observer invocation performed after a successful write or
poke: one event if a callback is registered, nothing otherwise
(`if (m_writeObserver != nullptr)`). -/
def observerEvents (st : BusState) (address size : Nat) (poke : Bool) : List BusEvent :=
  match st.writeObserver with
  | some _ => [BusEvent.observerCall address size poke]
  | none => []

/-- Select the write handler slot of the matching width (`write8/16/32`),
or the poke slot when `poke` is true. -/
def writeSlot (hs : HandlerSet) (size : Nat) (poke : Bool) : Option Nat :=
  if poke then
    match size with
    | 1 => hs.poke8
    | 2 => hs.poke16
    | _ => hs.poke32
  else
    match size with
    | 1 => hs.write8
    | 2 => hs.write16
    | _ => hs.write32

/-- `Bus::Write<T>` (bus.hpp lines 204-233) for `poke = false` and
`Bus::Poke<T>` (lines 264-293) for `poke = true`; the two bodies differ
only in the handler slots used and the observer `poke` flag.  Returns the
new state and the trace of external calls made, in order. -/
def busWriteOrPoke (st : BusState) (size address value : Nat) (poke : Bool) :
    BusState × List BusEvent :=
  let addr := maskAlign address size
  let entry := st.pages (pageIndex addr)
  match entry.array with
  | some base =>
    if entry.arrayWritable then
      ({ st with mem := writeBE st.mem (base + (addr &&& kPageMask)) size value },
       observerEvents st addr size poke)
    else
      (st, [])
  | none =>
    (st,
     BusEvent.handlerWrite (writeSlot entry.handlers size poke) addr value size entry.ctx
       :: observerEvents st addr size poke)

/-- `Bus::Write<T>`. -/
def busWrite (st : BusState) (size address value : Nat) : BusState × List BusEvent :=
  busWriteOrPoke st size address value false

/-- `Bus::Poke<T>`. -/
def busPoke (st : BusState) (size address value : Nat) : BusState × List BusEvent :=
  busWriteOrPoke st size address value true

/-!
Mapping operations.  A variadic `Map*` call passes a list of handlers,
each dispatched on its function signature by `AssignHandler`
(bus.hpp lines 399-432).
-/

/-- One handler argument of a `Map*` call, discriminated by its function
signature as in the `bus_handler_fn` concept. -/
inductive HandlerItem where
  | read8 (h : Nat)
  | read16 (h : Nat)
  | read32 (h : Nat)
  | write8 (h : Nat)
  | write16 (h : Nat)
  | write32 (h : Nat)
  | busWait (h : Nat)
  deriving DecidableEq, Repr

/-- `Bus::AssignHandler<peekpoke>` (bus.hpp lines 399-432): installs one
handler into the slot matching its signature; `FnBusWait` handlers go to
the single `busWait` slot regardless of `peekpoke`. -/
def assignHandler (peekpoke : Bool) (hs : HandlerSet) (item : HandlerItem) : HandlerSet :=
  match item with
  | HandlerItem.busWait h => { hs with busWait := some h }
  | HandlerItem.read8 h =>
    if peekpoke then { hs with peek8 := some h } else { hs with read8 := some h }
  | HandlerItem.read16 h =>
    if peekpoke then { hs with peek16 := some h } else { hs with read16 := some h }
  | HandlerItem.read32 h =>
    if peekpoke then { hs with peek32 := some h } else { hs with read32 := some h }
  | HandlerItem.write8 h =>
    if peekpoke then { hs with poke8 := some h } else { hs with write8 := some h }
  | HandlerItem.write16 h =>
    if peekpoke then { hs with poke16 := some h } else { hs with write16 := some h }
  | HandlerItem.write32 h =>
    if peekpoke then { hs with poke32 := some h } else { hs with write32 := some h }

/-- Per-page body of `Bus::Map<normal, sideEffectFree>` (bus.hpp lines
385-396): clear the backing array pointer and writable flag, set the
context, then assign each handler for the selected categories. -/
def mapPage (normal sideEffectFree : Bool) (ctx : Nat) (handlers : List HandlerItem)
    (pg : MemoryPage) : MemoryPage :=
  let pg := { pg with array := none, arrayWritable := false, ctx := some ctx }
  let hs := if normal then handlers.foldl (assignHandler false) pg.handlers else pg.handlers
  let hs := if sideEffectFree then handlers.foldl (assignHandler true) hs else hs
  { pg with handlers := hs }

/-- Apply `f` to every page with index in `[start >> pageGranularityBits,
end >> pageGranularityBits]`, the loop shared by `Map`, `MapArray`,
`Unmap` and `SetAccessCycles`. -/
def updatePageRange (st : BusState) (startAddr endAddr : Nat) (f : Nat → MemoryPage → MemoryPage) :
    BusState :=
  let startIndex := pageIndex startAddr
  let endIndex := pageIndex endAddr
  { st with
    pages := fun i =>
      if startIndex ≤ i ∧ i ≤ endIndex then f (i - startIndex) (st.pages i) else st.pages i }

/-- `Bus::Map<normal, sideEffectFree>` over an address range. -/
def busMap (normal sideEffectFree : Bool) (startAddr endAddr ctx : Nat)
    (handlers : List HandlerItem) (st : BusState) : BusState :=
  updatePageRange st startAddr endAddr (fun _ pg => mapPage normal sideEffectFree ctx handlers pg)

/-- `Bus::MapArray<N>` (bus.hpp lines 148-162): reset each page in the
range to all defaults, then install the array pointer
`&array[offset & kMask]` (`kMask = N - 1`, `offset` advancing by one page
size per page) and the writable flag. -/
def busMapArray (startAddr endAddr base n : Nat) (writable : Bool) (st : BusState) : BusState :=
  updatePageRange st startAddr endAddr (fun k _ =>
    { (({} : MemoryPage)) with
      array := some (base + (k * kPageSize &&& (n - 1)))
      arrayWritable := writable })

/-- `Bus::Unmap` (bus.hpp lines 127-133): `m_pages[i] = {}`. -/
def busUnmap (startAddr endAddr : Nat) (st : BusState) : BusState :=
  updatePageRange st startAddr endAddr (fun _ _ => {})

/-- `Bus::SetAccessCycles` (bus.hpp lines 319-326): store the requested
timings clamped below by 1 (`std::max<uint64>(readCycles, 1ull)`). -/
def busSetAccessCycles (startAddr endAddr readCycles writeCycles : Nat) (st : BusState) :
    BusState :=
  updatePageRange st startAddr endAddr (fun _ pg =>
    { pg with readCycles := max readCycles 1, writeCycles := max writeCycles 1 })

/-- `Bus::GetAccessCycles<write>` (bus.hpp lines 332-339). -/
def busGetAccessCycles (write : Bool) (address : Nat) (st : BusState) : Nat :=
  let entry := st.pages (pageIndex (address &&& kAddressMask))
  if write then entry.writeCycles else entry.readCycles

/-- `Bus::SetWriteObserver` (bus.hpp lines 167-170). -/
def busSetWriteObserver (callback : Option Nat) (st : BusState) : BusState :=
  { st with writeObserver := callback }

/-- One configuration call on the bus, for quantifying over arbitrary
sequences of mapping/timing calls. -/
inductive BusOp where
  | mapNormal (startAddr endAddr ctx : Nat) (handlers : List HandlerItem)
  | mapSideEffectFree (startAddr endAddr ctx : Nat) (handlers : List HandlerItem)
  | mapBoth (startAddr endAddr ctx : Nat) (handlers : List HandlerItem)
  | mapArray (startAddr endAddr base n : Nat) (writable : Bool)
  | unmap (startAddr endAddr : Nat)
  | setAccessCycles (startAddr endAddr readCycles writeCycles : Nat)
  | setWriteObserver (callback : Option Nat)

/-- Interpretation of one configuration call (`MapNormal`, `MapSideEffectFree`
and `MapBoth` delegate to `Map<true,false>`, `Map<false,true>` and
`Map<true,true>` respectively, bus.hpp lines 80-122). -/
def applyBusOp (st : BusState) (op : BusOp) : BusState :=
  match op with
  | BusOp.mapNormal s e ctx hs => busMap true false s e ctx hs st
  | BusOp.mapSideEffectFree s e ctx hs => busMap false true s e ctx hs st
  | BusOp.mapBoth s e ctx hs => busMap true true s e ctx hs st
  | BusOp.mapArray s e base n w => busMapArray s e base n w st
  | BusOp.unmap s e => busUnmap s e st
  | BusOp.setAccessCycles s e r w => busSetAccessCycles s e r w st
  | BusOp.setWriteObserver cb => busSetWriteObserver cb st

/-- A sequence of configuration calls applied in order. -/
def applyBusOps (ops : List BusOp) (st : BusState) : BusState :=
  ops.foldl applyBusOp st

/-- Is this event an invocation of the global write observer? -/
def isObserverCall : BusEvent → Bool
  | BusEvent.observerCall _ _ _ => true
  | _ => false

/-- A write or poke is blocked exactly when it targets an array-backed
page whose backing array is read-only (bus.hpp lines 210-218, 270-278). -/
def writeBlocked (entry : MemoryPage) : Bool :=
  entry.array.isSome && !entry.arrayWritable

/-- Per-page timing invariant: both access cycle counts are at least 1. -/
def pageCyclesOk (pg : MemoryPage) : Prop :=
  1 ≤ pg.readCycles ∧ 1 ≤ pg.writeCycles

/-- Bus timing invariant over all pages. -/
def busCyclesOk (st : BusState) : Prop :=
  ∀ p, pageCyclesOk (st.pages p)

lemma busCyclesOk_applyBusOp {st : BusState} (h : busCyclesOk st) (op : BusOp) :
    busCyclesOk (applyBusOp st op) := by
  have hdef : pageCyclesOk ({} : MemoryPage) := by constructor <;> simp
  cases op <;>
    simp only [applyBusOp, busMap, busMapArray, busUnmap, busSetAccessCycles,
      busSetWriteObserver, updatePageRange, busCyclesOk] <;>
    intro p
  case mapNormal s e ctx hs =>
    by_cases hp : pageIndex s ≤ p ∧ p ≤ pageIndex e <;>
      simp only [hp, if_pos, if_neg, mapPage, pageCyclesOk] <;> exact h p
  case mapSideEffectFree s e ctx hs =>
    by_cases hp : pageIndex s ≤ p ∧ p ≤ pageIndex e <;>
      simp only [hp, if_pos, if_neg, mapPage, pageCyclesOk] <;> exact h p
  case mapBoth s e ctx hs =>
    by_cases hp : pageIndex s ≤ p ∧ p ≤ pageIndex e <;>
      simp only [hp, if_pos, if_neg, mapPage, pageCyclesOk] <;> exact h p
  case mapArray s e base n w =>
    by_cases hp : pageIndex s ≤ p ∧ p ≤ pageIndex e <;>
      simp only [hp, if_pos, if_neg]
    · exact hdef
    · exact h p
  case unmap s e =>
    by_cases hp : pageIndex s ≤ p ∧ p ≤ pageIndex e <;>
      simp only [hp, if_pos, if_neg]
    · exact hdef
    · exact h p
  case setAccessCycles s e r w =>
    by_cases hp : pageIndex s ≤ p ∧ p ≤ pageIndex e <;>
      simp only [hp, if_pos, if_neg, pageCyclesOk]
    · constructor <;> simp
    · exact h p
  case setWriteObserver cb =>
    exact h p

lemma busCyclesOk_applyBusOps (ops : List BusOp) {st : BusState} (h : busCyclesOk st) :
    busCyclesOk (applyBusOps ops st) := by
  induction ops generalizing st with
  | nil => exact h
  | cons op rest ih => exact ih (busCyclesOk_applyBusOp h op)

lemma busCyclesOk_initial (mem0 : Nat → Nat) : busCyclesOk (initialBus mem0) := by
  intro p
  constructor <;> simp [initialBus]

/-- A page with an installed backing array has all handler slots at their
no-op defaults. -/
def pageExclusive (pg : MemoryPage) : Prop :=
  pg.array = none ∨ pg.handlers = ({} : HandlerSet)

lemma pageExclusive_applyBusOp {st : BusState} (h : ∀ p, pageExclusive (st.pages p))
    (op : BusOp) : ∀ p, pageExclusive ((applyBusOp st op).pages p) := by
  cases op <;>
    simp only [applyBusOp, busMap, busMapArray, busUnmap, busSetAccessCycles,
      busSetWriteObserver, updatePageRange] <;>
    intro p
  case mapNormal s e ctx hs =>
    by_cases hp : pageIndex s ≤ p ∧ p ≤ pageIndex e <;>
      simp only [hp, if_pos, if_neg]
    · exact Or.inl rfl
    · exact h p
  case mapSideEffectFree s e ctx hs =>
    by_cases hp : pageIndex s ≤ p ∧ p ≤ pageIndex e <;>
      simp only [hp, if_pos, if_neg]
    · exact Or.inl rfl
    · exact h p
  case mapBoth s e ctx hs =>
    by_cases hp : pageIndex s ≤ p ∧ p ≤ pageIndex e <;>
      simp only [hp, if_pos, if_neg]
    · exact Or.inl rfl
    · exact h p
  case mapArray s e base n w =>
    by_cases hp : pageIndex s ≤ p ∧ p ≤ pageIndex e <;>
      simp only [hp, if_pos, if_neg]
    · exact Or.inr rfl
    · exact h p
  case unmap s e =>
    by_cases hp : pageIndex s ≤ p ∧ p ≤ pageIndex e <;>
      simp only [hp, if_pos, if_neg]
    · exact Or.inl rfl
    · exact h p
  case setAccessCycles s e r w =>
    by_cases hp : pageIndex s ≤ p ∧ p ≤ pageIndex e <;>
      simp only [hp, if_pos, if_neg]
    · rcases h p with h1 | h1
      · exact Or.inl h1
      · exact Or.inr h1
    · exact h p
  case setWriteObserver cb =>
    exact h p

lemma pageExclusive_applyBusOps (ops : List BusOp) {st : BusState}
    (h : ∀ p, pageExclusive (st.pages p)) :
    ∀ p, pageExclusive ((applyBusOps ops st).pages p) := by
  induction ops generalizing st with
  | nil => exact h
  | cons op rest ih => exact ih (pageExclusive_applyBusOp h op)

/-- C9: after every sequence of MapNormal/MapSideEffectFree/MapBoth,
MapArray, Unmap (and other configuration) calls starting from a freshly
constructed bus, every page is either array-backed or handler-backed but
never both: any page with an installed backing-array pointer has all its
handler slots at the no-op defaults.  Each handler-mapping call first
clears the backing-array pointer and writable flag, and MapArray first
resets all handler slots before installing the array pointer. -/
theorem c9_array_handler_exclusive (ops : List BusOp) (mem0 : Nat → Nat) (p : Nat) :
    ((applyBusOps ops (initialBus mem0)).pages p).array = none ∨
      ((applyBusOps ops (initialBus mem0)).pages p).handlers = ({} : HandlerSet) :=
  pageExclusive_applyBusOps ops (fun _ => Or.inl rfl) p

/-- C10: `SetAccessCycles` clamps the stored per-page timings to a
minimum of one cycle, so after any sequence of configuration calls
(including requests for 0 cycles) `GetAccessCycles<write>` returns at
least 1 for every address. -/
theorem c10_access_cycles_at_least_one (ops : List BusOp) (mem0 : Nat → Nat)
    (write : Bool) (address : Nat) :
    1 ≤ busGetAccessCycles write address (applyBusOps ops (initialBus mem0)) := by
  have h := busCyclesOk_applyBusOps ops (busCyclesOk_initial mem0)
             (pageIndex (address &&& kAddressMask))
  cases write
  · exact h.1
  · exact h.2

/-- C7: every `Bus::Write<T>` / `Bus::Poke<T>` call invokes the global
write observer (when set) exactly once, with the masked address,
`sizeof(T)` and the poke flag, as the last external call — i.e. after the
successful array or handler write; a write or poke targeting a read-only
array-backed page changes nothing and performs no external call at all,
in particular it does not invoke the observer. -/
theorem c7_write_observer_once_after_success (st : BusState) (size address value : Nat)
    (poke : Bool) :
    (if writeBlocked (st.pages (pageIndex (maskAlign address size))) then
      (busWriteOrPoke st size address value poke).1 = st ∧
        (busWriteOrPoke st size address value poke).2 = []
    else
      if st.writeObserver.isSome then
        (busWriteOrPoke st size address value poke).2.filter isObserverCall =
            [BusEvent.observerCall (maskAlign address size) size poke] ∧
          (busWriteOrPoke st size address value poke).2.getLast? =
            some (BusEvent.observerCall (maskAlign address size) size poke)
      else
        (busWriteOrPoke st size address value poke).2.filter isObserverCall = []) := by
  rcases harr : (st.pages (pageIndex (maskAlign address size))).array with _ | base
  · rcases hobs : st.writeObserver with _ | cb <;>
      simp [writeBlocked, busWriteOrPoke, observerEvents, harr, hobs, isObserverCall]
  · rcases hw : (st.pages (pageIndex (maskAlign address size))).arrayWritable with _ | _ <;>
      rcases hobs : st.writeObserver with _ | cb <;>
      simp [writeBlocked, busWriteOrPoke, observerEvents, harr, hw, hobs, isObserverCall]

/-!
SH2 block cache model (src/ymir/hw/sh2/sh2.cpp).

The class constants live in the SH2 header, which is not part of the
sources at hand; their values are fixed by the code and tests:
the SH2 bus spans 27 address bits (`SH2Bus = Bus<27, 16>`, and the test
suite maps and executes across `0x000'0000-0x7FF'FFFF`), cached-block
pages are 4 KB (`// Most writes are small and stay within one 4KB page`,
sh2.cpp line 500, and the page-boundary test crosses at a 0x1000
boundary), and blocks hold at most 32 instructions (the `cap32` tests).
-/

/-- `kCachedBlockAddressMask`: 27 bits of cacheable address space. -/
def kCachedBlockAddressMask : Nat := 2 ^ 27 - 1

/-- `kCachedBlockPageBits`: 4 KB block-cache pages. -/
def kCachedBlockPageBits : Nat := 12

/-- Number of 4 KB pages in the cacheable range (`2^(27-12)`). -/
def kCachedBlockPageCount : Nat := 2 ^ 15

/-- `kCachedBlockPageMask`: masks a bus address down to its page base
(used as `buildBusAddress & kCachedBlockPageMask` in `BuildCachedBlock`). -/
def kCachedBlockPageMask : Nat := kCachedBlockAddressMask - (2 ^ kCachedBlockPageBits - 1)

/-- `kCachedBlockPageOffsetMask`: byte offset of an address in its page. -/
def kCachedBlockPageOffsetMask : Nat := 2 ^ kCachedBlockPageBits - 1

/-- `kCachedBlockMaxInstructions`: instruction cap per cached block. -/
def kCachedBlockMaxInstructions : Nat := 32

/-- `kCachedBurstMaxOpsP91`: per-call instruction cap of the burst loop.
The header value is not in the sources at hand; the theorems below hold
for any positive cap, and 64 is used as a representative value. -/
def kCachedBurstMaxOpsP91 : Nat := 64

/-- `kLookupBucketsPerChunk`: lookup buckets per pool chunk.  The header
value is not in the sources at hand; the theorems below do not depend on
it. -/
def kLookupBucketsPerChunk : Nat := 64

/-- 32-bit wraparound for `uint32` arithmetic. -/
def u32 (n : Nat) : Nat := n % 2 ^ 32

/-- SH2 opcode classification tags (`OpcodeType`).  The sixteen barrier
opcodes named by `IsCachedBlockBarrier` (sh2.cpp lines 112-132) are
explicit constructors; every other opcode of the decode table is
represented by `other n`, for which `IsCachedBlockBarrier`'s `default`
branch returns false. -/
inductive OpcodeType where
  | SLEEP
  | BF
  | BFS
  | BT
  | BTS
  | BRA
  | BRAF
  | BSR
  | BSRF
  | JMP
  | JSR
  | TRAPA
  | RTE
  | RTS
  | Illegal
  | IllegalSlot
  | other (n : Nat)
  deriving DecidableEq, Repr

/-- `IsCachedBlockBarrier` (sh2.cpp lines 112-132): the closed set of
control-flow barrier opcodes at which block building stops. -/
def isCachedBlockBarrier : OpcodeType → Bool
  | OpcodeType.SLEEP => true
  | OpcodeType.BF => true
  | OpcodeType.BFS => true
  | OpcodeType.BT => true
  | OpcodeType.BTS => true
  | OpcodeType.BRA => true
  | OpcodeType.BRAF => true
  | OpcodeType.BSR => true
  | OpcodeType.BSRF => true
  | OpcodeType.JMP => true
  | OpcodeType.JSR => true
  | OpcodeType.TRAPA => true
  | OpcodeType.RTE => true
  | OpcodeType.RTS => true
  | OpcodeType.Illegal => true
  | OpcodeType.IllegalSlot => true
  | _ => false

/-- `SH2::CachedBlock`: a decoded run of instructions.  The fixed-size
`instructions`/`decodedOpcodes` arrays are modelled as total functions;
only indices below `instructionCount` are ever read. -/
structure CachedBlock where
  startPC : Nat := 0
  startDelaySlot : Bool := false
  startBusPage : Nat := 0
  busPageGeneration : Nat := 0
  lookupOffsetNext : Int := -1
  instructionCount : Nat := 0
  instructions : Nat → Nat := fun _ => 0
  decodedOpcodes : Nat → OpcodeType := fun _ => OpcodeType.Illegal

/-- `SH2::CachedBlockCursor`: the transient last-known execution
position; `{}`-initialization yields an invalid cursor. -/
structure CachedBlockCursor where
  blockIndex : Nat := 0
  instructionIndex : Nat := 0
  expectedPC : Nat := 0
  expectedDelaySlot : Bool := false
  valid : Bool := false
  deriving DecidableEq, Repr

/-- `SH2::CachedBlockLookupBucket`: one chain head (`-1` = empty) per
even-aligned in-page instruction offset. -/
structure CachedBlockLookupBucket where
  offsetHeads : Nat → Int

/-- The block-cache portion of the SH2 state, together with the outcome
oracle for the external virtual-memory chunk allocator
(`util::VirtualMemory::Allocate`): `allocOracle k` is whether the `k`-th
chunk allocation attempt succeeds. -/
structure BlockCacheState where
  blocks : List CachedBlock
  cursor : CachedBlockCursor
  pageGenerations : Nat → Nat
  bucketHeads : Nat → Int
  lookupBuckets : Nat → CachedBlockLookupBucket
  lookupBucketCount : Nat
  lookupBucketCapacity : Nat
  freeList : List Nat
  activeList : List Nat
  allocOracle : Nat → Bool
  allocCount : Nat

/-- `SH2::GetCachedBlockPage` (sh2.cpp lines 515-517). -/
def getCachedBlockPage (pc : Nat) : Nat :=
  (pc &&& kCachedBlockAddressMask) >>> kCachedBlockPageBits

/-- `SH2::GetCachedBlockBucket` (sh2.cpp lines 519-522): page index
shifted up one bit, with the delay-slot flag as the low bit. -/
def getCachedBlockBucket (pc : Nat) (delaySlot : Bool) : Nat :=
  (getCachedBlockPage pc <<< 1) ||| (if delaySlot then 1 else 0)

/-- `SH2::GetCachedBlockOffset` (sh2.cpp lines 524-526). -/
def getCachedBlockOffset (pc : Nat) : Nat :=
  (pc &&& kCachedBlockPageOffsetMask) >>> 1

/-- Cursor helper of `SH2::InvalidateBlockCacheRange` (sh2.cpp lines
470-482): invalidate the cursor when its block's start page lies in
`[startPage, endPage]` (or when the cursor's block index is stale). -/
def invalidateCursorIfPageOverlaps (s : BlockCacheState) (startPage endPage : Nat) :
    BlockCacheState :=
  if !s.cursor.valid then s
  else if s.blocks.length ≤ s.cursor.blockIndex then
    { s with cursor := { s.cursor with valid := false } }
  else
    let cursorPage := (s.blocks.getD s.cursor.blockIndex {}).startBusPage
    if startPage ≤ cursorPage ∧ cursorPage ≤ endPage then
      { s with cursor := { s.cursor with valid := false } }
    else s

/-- `SH2::InvalidateBlockCacheRange` (sh2.cpp lines 463-513). -/
def invalidateBlockCacheRange (s : BlockCacheState) (address size : Nat) : BlockCacheState :=
  if size = 0 then s
  else
    let address := address &&& kCachedBlockAddressMask
    let addressRangeSize := kCachedBlockAddressMask + 1
    if addressRangeSize ≤ size then
      { s with
        pageGenerations := fun p => s.pageGenerations p + 1
        cursor := { s.cursor with valid := false } }
    else
      let startAddress := address
      let endAddress := min (startAddress + size - 1) kCachedBlockAddressMask
      let startPage := startAddress >>> kCachedBlockPageBits
      let endPage := endAddress >>> kCachedBlockPageBits
      let s :=
        { s with
          pageGenerations := fun p =>
            if startPage ≤ p ∧ p ≤ endPage then s.pageGenerations p + 1
            else s.pageGenerations p }
      invalidateCursorIfPageOverlaps s startPage endPage

/-- Bus page `p` is overlapped by the byte range
`[address, address + size - 1]`. -/
def pageOverlapped (address size p : Nat) : Prop :=
  address >>> kCachedBlockPageBits ≤ p ∧ p ≤ (address + size - 1) >>> kCachedBlockPageBits

instance (address size p : Nat) : Decidable (pageOverlapped address size p) := by
  unfold pageOverlapped
  infer_instance

lemma shiftRight12_min_iff {p e : Nat} (hp : p < kCachedBlockPageCount) :
    p ≤ min e kCachedBlockAddressMask >>> kCachedBlockPageBits ↔
      p ≤ e >>> kCachedBlockPageBits := by
  simp only [Nat.shiftRight_eq_div_pow, kCachedBlockPageBits, kCachedBlockAddressMask] at *
  rcases le_total e (2 ^ 27 - 1) with h | h
  · rw [min_eq_left h]
  · rw [min_eq_right h]
    have h1 : (2 ^ 27 - 1) / 2 ^ 12 = 2 ^ 15 - 1 := by norm_num
    have h2 : (2 ^ 27 - 1) / 2 ^ 12 ≤ e / 2 ^ 12 := Nat.div_le_div_right h
    simp only [kCachedBlockPageCount] at hp
    omega

lemma invalidateCursorIfPageOverlaps_pageGenerations (s : BlockCacheState) (a b : Nat) :
    (invalidateCursorIfPageOverlaps s a b).pageGenerations = s.pageGenerations := by
  simp only [invalidateCursorIfPageOverlaps]
  split_ifs <;> rfl

lemma invalidateCursorIfPageOverlaps_blocks (s : BlockCacheState) (a b : Nat) :
    (invalidateCursorIfPageOverlaps s a b).blocks = s.blocks := by
  simp only [invalidateCursorIfPageOverlaps]
  split_ifs <;> rfl

lemma invalidateCursorIfPageOverlaps_cursor_valid (s : BlockCacheState) (a b : Nat)
    (hidx : s.cursor.valid = true → s.cursor.blockIndex < s.blocks.length)
    (hv : s.cursor.valid = true) :
    ((invalidateCursorIfPageOverlaps s a b).cursor.valid = false ↔
      a ≤ (s.blocks.getD s.cursor.blockIndex {}).startBusPage ∧
        (s.blocks.getD s.cursor.blockIndex {}).startBusPage ≤ b) := by
  have hlen := hidx hv
  simp only [invalidateCursorIfPageOverlaps, hv, Bool.not_true]
  rw [if_neg (by simp), if_neg (by omega)]
  split_ifs with h
  · simpa using h
  · simpa [hv] using h

lemma invalidateCursorIfPageOverlaps_cursor_invalid (s : BlockCacheState) (a b : Nat)
    (hv : s.cursor.valid = false) :
    (invalidateCursorIfPageOverlaps s a b).cursor = s.cursor := by
  simp only [invalidateCursorIfPageOverlaps, hv, Bool.not_false, if_pos]

/-- C2: `InvalidateBlockCacheRange(address, size)` with `0 < size` smaller
than the full cached-block address range increments exactly the
generation counters of the bus pages overlapped by
`[address, address + size - 1]`, leaves all other page generations
unchanged, and invalidates the cursor if and only if the start page of
the cursor's current block lies in that overlapped page range (a valid
cursor whose block starts on an unrelated page is left intact; an
already-invalid cursor stays untouched); if `size` covers the entire
address range, every page generation is incremented and the cursor is
unconditionally invalidated. -/
theorem c2_invalidate_block_cache_range_locality (s : BlockCacheState) (address size : Nat)
    (haddr : address ≤ kCachedBlockAddressMask)
    (hsize : 0 < size)
    (hidx : s.cursor.valid = true → s.cursor.blockIndex < s.blocks.length)
    (hpage : s.cursor.valid = true →
      (s.blocks.getD s.cursor.blockIndex {}).startBusPage < kCachedBlockPageCount) :
    (size < kCachedBlockAddressMask + 1 →
      (∀ p, p < kCachedBlockPageCount →
        (invalidateBlockCacheRange s address size).pageGenerations p =
          if pageOverlapped address size p then s.pageGenerations p + 1
          else s.pageGenerations p) ∧
      (s.cursor.valid = true →
        ((invalidateBlockCacheRange s address size).cursor.valid = false ↔
          pageOverlapped address size (s.blocks.getD s.cursor.blockIndex {}).startBusPage)) ∧
      (s.cursor.valid = false → (invalidateBlockCacheRange s address size).cursor = s.cursor) ∧
      (invalidateBlockCacheRange s address size).blocks = s.blocks) ∧
    (kCachedBlockAddressMask + 1 ≤ size →
      (∀ p, (invalidateBlockCacheRange s address size).pageGenerations p =
        s.pageGenerations p + 1) ∧
      (invalidateBlockCacheRange s address size).cursor.valid = false) := by
  have hmask : address &&& kCachedBlockAddressMask = address := by
    show address &&& (2 ^ 27 - 1) = address
    rw [Nat.and_pow_two_sub_one_eq_mod]
    exact Nat.mod_eq_of_lt (by simp only [kCachedBlockAddressMask] at haddr; omega)
  constructor
  · intro hlt
    have hcond : ¬(kCachedBlockAddressMask + 1 ≤ size) := by omega
    have hne : ¬(size = 0) := by omega
    simp only [invalidateBlockCacheRange, if_neg hne, hmask, if_neg hcond]
    refine ⟨?_, ?_, ?_, ?_⟩
    · intro p hp
      rw [invalidateCursorIfPageOverlaps_pageGenerations]
      simp only [pageOverlapped]
      by_cases hin : address >>> kCachedBlockPageBits ≤ p ∧
          p ≤ (address + size - 1) >>> kCachedBlockPageBits
      · rw [if_pos hin, if_pos ⟨hin.1, (shiftRight12_min_iff hp).mpr hin.2⟩]
      · rw [if_neg hin, if_neg ?_]
        intro hmin
        exact hin ⟨hmin.1, (shiftRight12_min_iff hp).mp hmin.2⟩
    · intro hv
      rw [invalidateCursorIfPageOverlaps_cursor_valid _ _ _ (by simpa using hidx) (by simpa using hv)]
      simp only [pageOverlapped]
      constructor
      · rintro ⟨h1, h2⟩
        exact ⟨h1, (shiftRight12_min_iff (hpage hv)).mp h2⟩
      · rintro ⟨h1, h2⟩
        exact ⟨h1, (shiftRight12_min_iff (hpage hv)).mpr h2⟩
    · intro hv
      rw [invalidateCursorIfPageOverlaps_cursor_invalid _ _ _ (by simpa using hv)]
    · rw [invalidateCursorIfPageOverlaps_blocks]
  · intro hge
    have hne : ¬(size = 0) := by omega
    simp only [invalidateBlockCacheRange, if_neg hne, hmask, if_pos hge]
    exact ⟨fun _ => trivial, trivial⟩

/-- A one-instruction cached block starting at PC `0x1000` (bus page 1),
used to instantiate theorems at concrete inputs. -/
def sampleBlock : CachedBlock :=
  { startPC := 0x1000, startBusPage := 1, busPageGeneration := 0, instructionCount := 1 }

/-- A concrete block-cache state with one block and a valid cursor on it,
used to instantiate theorems at concrete inputs. -/
def sampleCache : BlockCacheState where
  blocks := [sampleBlock]
  cursor :=
    { blockIndex := 0, instructionIndex := 0, expectedPC := 0x1000, expectedDelaySlot := false,
      valid := true }
  pageGenerations := fun _ => 0
  bucketHeads := fun _ => -1
  lookupBuckets := fun _ => ⟨fun _ => -1⟩
  lookupBucketCount := 0
  lookupBucketCapacity := 0
  freeList := []
  activeList := []
  allocOracle := fun _ => true
  allocCount := 0

/-- Loop body of `SH2::BuildCachedBlock` (sh2.cpp lines 2169-2189):
record the instruction fetched at `buildPC`, stop after a delay-slot
entry or a barrier opcode, stop before crossing into a different page,
otherwise advance one instruction; `fuel` is the remaining trip count of
the `for` loop (`kCachedBlockMaxInstructions` iterations at most). -/
def buildCachedBlockLoop (peek : Nat → Nat) (decode : Bool → Nat → OpcodeType)
    (startPage : Nat) : Nat → CachedBlock → Nat → Nat → Bool → CachedBlock
  | 0, block, _, _, _ => block
  | fuel + 1, block, buildPC, buildBusAddress, decodeDelaySlot =>
    let instr := peek buildPC
    let opcode := decode decodeDelaySlot instr
    let block :=
      { block with
        instructions := Function.update block.instructions block.instructionCount instr
        decodedOpcodes := Function.update block.decodedOpcodes block.instructionCount opcode
        instructionCount := block.instructionCount + 1 }
    if decodeDelaySlot || isCachedBlockBarrier opcode then block
    else
      let nextBusAddress := (buildBusAddress + 2) &&& kCachedBlockAddressMask
      if (nextBusAddress &&& kCachedBlockPageMask) ≠ startPage then block
      else buildCachedBlockLoop peek decode startPage fuel block (u32 (buildPC + 2))
        nextBusAddress false

/-- `SH2::BuildCachedBlock` (sh2.cpp lines 2156-2190), parametrized over
the instruction fetch (`PeekInstruction`) and the decode table.  The
function overwrites the given block slot in place; array entries past the
new instruction count keep their old contents, and `lookupOffsetNext` is
untouched. -/
def buildCachedBlock (peek : Nat → Nat) (decode : Bool → Nat → OpcodeType)
    (generations : Nat → Nat) (block : CachedBlock) (startPC : Nat) (startDelaySlot : Bool) :
    CachedBlock :=
  let startBusPage := (startPC &&& kCachedBlockAddressMask) >>> kCachedBlockPageBits
  let block :=
    { block with
      startPC := startPC
      startDelaySlot := startDelaySlot
      startBusPage := startBusPage
      busPageGeneration := generations startBusPage
      instructionCount := 0 }
  let buildBusAddress := startPC &&& kCachedBlockAddressMask
  let startPage := buildBusAddress &&& kCachedBlockPageMask
  buildCachedBlockLoop peek decode startPage kCachedBlockMaxInstructions block startPC
    buildBusAddress startDelaySlot

/-- The instruction the block builder fetches at index `i` of a build
starting at `startPC` (`buildPC` advances by 2 with 32-bit wraparound). -/
def cbInstrAt (peek : Nat → Nat) (startPC i : Nat) : Nat :=
  peek (u32 (startPC + 2 * i))

/-- The delay-slot decode flag at build index `i`: the start flag for the
first instruction, false afterwards. -/
def cbDelayFlag (startDelaySlot : Bool) (i : Nat) : Bool :=
  if i = 0 then startDelaySlot else false

/-- The opcode the block builder decodes at build index `i`. -/
def cbOpAt (peek : Nat → Nat) (decode : Bool → Nat → OpcodeType)
    (startPC : Nat) (startDelaySlot : Bool) (i : Nat) : OpcodeType :=
  decode (cbDelayFlag startDelaySlot i) (cbInstrAt peek startPC i)

/-- The bus address of build index `i` (27-bit wraparound). -/
def cbAddrAt (startPC i : Nat) : Nat :=
  ((startPC &&& kCachedBlockAddressMask) + 2 * i) % 2 ^ 27

/-- The next instruction after build index `i` would cross into a
different cached-block page. -/
def cbCrossAfter (startPC : Nat) (i : Nat) : Prop :=
  cbAddrAt startPC (i + 1) &&& kCachedBlockPageMask ≠
    (startPC &&& kCachedBlockAddressMask) &&& kCachedBlockPageMask

instance (startPC i : Nat) : Decidable (cbCrossAfter startPC i) := by
  unfold cbCrossAfter
  infer_instance

/-- A build stops right after index `i`: delay-slot entry (only at index
0), barrier opcode, or page crossing. -/
def cbStopAfter (peek : Nat → Nat) (decode : Bool → Nat → OpcodeType)
    (startPC : Nat) (startDelaySlot : Bool) (i : Nat) : Prop :=
  (i = 0 ∧ startDelaySlot = true) ∨
    isCachedBlockBarrier (cbOpAt peek decode startPC startDelaySlot i) = true ∨
    cbCrossAfter startPC i

lemma cbAddrAt_lt (startPC i : Nat) : cbAddrAt startPC i < 2 ^ 27 :=
  Nat.mod_lt _ (by norm_num)

lemma cbAddrAt_zero (startPC : Nat) : cbAddrAt startPC 0 = startPC &&& kCachedBlockAddressMask := by
  unfold cbAddrAt
  have : startPC &&& kCachedBlockAddressMask = startPC % 2 ^ 27 := by
    exact Nat.and_pow_two_sub_one_eq_mod startPC 27
  rw [this]
  omega

lemma cbAddrAt_succ (startPC k : Nat) :
    (cbAddrAt startPC k + 2) &&& kCachedBlockAddressMask = cbAddrAt startPC (k + 1) := by
  have hm : ∀ a : Nat, a &&& kCachedBlockAddressMask = a % 2 ^ 27 := fun a =>
    Nat.and_pow_two_sub_one_eq_mod a 27
  rw [hm]
  unfold cbAddrAt
  conv_rhs =>
    rw [show (startPC &&& kCachedBlockAddressMask) + 2 * (k + 1) =
      (startPC &&& kCachedBlockAddressMask) + 2 * k + 2 by ring]
  omega

lemma u32_step (startPC k : Nat) :
    u32 (u32 (startPC + 2 * k) + 2) = u32 (startPC + 2 * (k + 1)) := by
  unfold u32
  conv_rhs => rw [show startPC + 2 * (k + 1) = startPC + 2 * k + 2 by ring]
  omega

/-- The block-builder loop as entered at build index `k`: `buildPC`,
`buildBusAddress` and `decodeDelaySlot` are in lock-step with `k`. -/
def cbLoopAt (peek : Nat → Nat) (decode : Bool → Nat → OpcodeType) (startPC : Nat)
    (startDelaySlot : Bool) (fuel k : Nat) (block : CachedBlock) : CachedBlock :=
  buildCachedBlockLoop peek decode ((startPC &&& kCachedBlockAddressMask) &&& kCachedBlockPageMask)
    fuel block (u32 (startPC + 2 * k)) (cbAddrAt startPC k) (cbDelayFlag startDelaySlot k)

/-- All facts the block builder guarantees about the loop result when
entered at index `k` with `fuel` remaining trips: the instruction count
grows by at least one and at most up to the cap, no stop condition holds
strictly inside the block, the block ends at the cap or right after a
stop condition, entries from `k` hold the sequentially fetched/decoded
instructions, earlier entries and the header fields are untouched. -/
def cbLoopSpec (peek : Nat → Nat) (decode : Bool → Nat → OpcodeType) (startPC : Nat)
    (startDelaySlot : Bool) (k : Nat) (block r : CachedBlock) : Prop :=
  (k + 1 ≤ r.instructionCount ∧ r.instructionCount ≤ kCachedBlockMaxInstructions) ∧
  (∀ i, k ≤ i → i + 1 < r.instructionCount →
    ¬cbStopAfter peek decode startPC startDelaySlot i) ∧
  (r.instructionCount = kCachedBlockMaxInstructions ∨
    cbStopAfter peek decode startPC startDelaySlot (r.instructionCount - 1)) ∧
  (∀ i, k ≤ i → i < r.instructionCount →
    r.instructions i = cbInstrAt peek startPC i ∧
    r.decodedOpcodes i = cbOpAt peek decode startPC startDelaySlot i) ∧
  (∀ i, i < k →
    r.instructions i = block.instructions i ∧ r.decodedOpcodes i = block.decodedOpcodes i) ∧
  (r.startPC = block.startPC ∧ r.startDelaySlot = block.startDelaySlot ∧
    r.startBusPage = block.startBusPage ∧ r.busPageGeneration = block.busPageGeneration ∧
    r.lookupOffsetNext = block.lookupOffsetNext)

lemma buildCachedBlockLoop_spec (peek : Nat → Nat) (decode : Bool → Nat → OpcodeType)
    (startPC : Nat) (startDelaySlot : Bool) :
    ∀ fuel k block,
      block.instructionCount = k →
      k + fuel = kCachedBlockMaxInstructions →
      0 < fuel →
      cbLoopSpec peek decode startPC startDelaySlot k block
        (cbLoopAt peek decode startPC startDelaySlot fuel k block) := by
  intro fuel
  induction fuel with
  | zero => intro k block _ _ hf; omega
  | succ f ih =>
    intro k block hcount hsum _
    have hk32 : k < kCachedBlockMaxInstructions := by omega
    simp only [cbLoopAt, buildCachedBlockLoop]
    have hinstrAt : peek (u32 (startPC + 2 * k)) = cbInstrAt peek startPC k := rfl
    have hopAt : decode (cbDelayFlag startDelaySlot k) (cbInstrAt peek startPC k) =
        cbOpAt peek decode startPC startDelaySlot k := rfl
    rw [hcount, hinstrAt, hopAt]
    set instr := cbInstrAt peek startPC k with hinstr
    set opcode := cbOpAt peek decode startPC startDelaySlot k with hopcode
    set block1 : CachedBlock :=
      { block with
        instructions := Function.update block.instructions k instr
        decodedOpcodes := Function.update block.decodedOpcodes k opcode
        instructionCount := k + 1 } with hblock1
    have hb1count : block1.instructionCount = k + 1 := rfl
    have hb1instr : block1.instructions k = cbInstrAt peek startPC k := by
      simp [hblock1]
    have hb1op : block1.decodedOpcodes k = cbOpAt peek decode startPC startDelaySlot k := by
      simp [hblock1]
    have hb1prev : ∀ i, i < k →
        block1.instructions i = block.instructions i ∧
        block1.decodedOpcodes i = block.decodedOpcodes i := by
      intro i hi
      constructor <;> simp [hblock1, Function.update_noteq (by omega : i ≠ k)]
    have hstop1block : cbLoopSpec peek decode startPC startDelaySlot k block block1 →
        True := fun _ => trivial
    cases hd : cbDelayFlag startDelaySlot k with
    | true =>
      have hstopk : cbStopAfter peek decode startPC startDelaySlot k := by
        left
        unfold cbDelayFlag at hd
        by_cases hk0 : k = 0
        · subst hk0
          simpa using hd
        · simp [hk0] at hd
      rw [if_pos (by simp)]
      refine ⟨⟨by omega, by omega⟩, ?_, ?_, ?_, hb1prev, by simp [hblock1]⟩
      · intro i hki hi1
        rw [hb1count] at hi1
        omega
      · right
        rw [hb1count]
        simpa using hstopk
      · intro i hki hi
        rw [hb1count] at hi
        have : i = k := by omega
        subst this
        exact ⟨hb1instr, hb1op⟩
    | false =>
      cases hb : isCachedBlockBarrier opcode with
      | true =>
        have hstopk : cbStopAfter peek decode startPC startDelaySlot k := Or.inr (Or.inl hb)
        rw [if_pos (by simp [hb])]
        refine ⟨⟨by omega, by omega⟩, ?_, ?_, ?_, hb1prev, by simp [hblock1]⟩
        · intro i hki hi1
          rw [hb1count] at hi1
          omega
        · right
          rw [hb1count]
          simpa using hstopk
        · intro i hki hi
          rw [hb1count] at hi
          have : i = k := by omega
          subst this
          exact ⟨hb1instr, hb1op⟩
      | false =>
        rw [if_neg (by simp [hb])]
        rw [cbAddrAt_succ]
        by_cases hcross : cbCrossAfter startPC k
        · rw [if_pos (by exact hcross)]
          have hstopk : cbStopAfter peek decode startPC startDelaySlot k :=
            Or.inr (Or.inr hcross)
          refine ⟨⟨by omega, by omega⟩, ?_, ?_, ?_, hb1prev, by simp [hblock1]⟩
          · intro i hki hi1
            rw [hb1count] at hi1
            omega
          · right
            rw [hb1count]
            simpa using hstopk
          · intro i hki hi
            rw [hb1count] at hi
            have : i = k := by omega
            subst this
            exact ⟨hb1instr, hb1op⟩
        · rw [if_neg (by exact hcross)]
          have hnostopk : ¬cbStopAfter peek decode startPC startDelaySlot k := by
            rintro (⟨hk0, hsds⟩ | hbar | hcr)
            · unfold cbDelayFlag at hd
              rw [if_pos hk0, hsds] at hd
              exact Bool.true_eq_false.mp hd
            · rw [← hopcode, hb] at hbar
              exact Bool.false_ne_true hbar
            · exact hcross hcr
          rcases Nat.eq_zero_or_pos f with hf0 | hf0
          · subst hf0
            simp only [buildCachedBlockLoop]
            have hb1c32 : block1.instructionCount = kCachedBlockMaxInstructions := by
              rw [hb1count]; omega
            refine ⟨⟨by omega, by omega⟩, ?_, Or.inl hb1c32, ?_, hb1prev, by simp [hblock1]⟩
            · intro i hki hi1
              rw [hb1count] at hi1
              omega
            · intro i hki hi
              rw [hb1count] at hi
              have : i = k := by omega
              subst this
              exact ⟨hb1instr, hb1op⟩
          · have hrec : buildCachedBlockLoop peek decode
                ((startPC &&& kCachedBlockAddressMask) &&& kCachedBlockPageMask) f block1
                (u32 (u32 (startPC + 2 * k) + 2)) (cbAddrAt startPC (k + 1)) false =
                cbLoopAt peek decode startPC startDelaySlot f (k + 1) block1 := by
              rw [u32_step]
              simp [cbLoopAt, cbDelayFlag]
            rw [hrec]
            obtain ⟨hbounds, hmin, hstop, hentries, hprev, hheaders⟩ :=
              ih (k + 1) block1 hb1count (by omega) hf0
            refine ⟨⟨by omega, hbounds.2⟩, ?_, hstop, ?_, ?_, ?_⟩
            · intro i hki hi1
              rcases Nat.lt_or_ge i (k + 1) with hik | hik
              · have : i = k := by omega
                subst this
                exact hnostopk
              · exact hmin i hik hi1
            · intro i hki hi
              rcases Nat.lt_or_ge i (k + 1) with hik | hik
              · have hik2 : i = k := by omega
                subst hik2
                obtain ⟨h1, h2⟩ := hprev i (by omega)
                rw [h1, h2]
                exact ⟨hb1instr, hb1op⟩
              · exact hentries i hik hi
            · intro i hi
              obtain ⟨h1, h2⟩ := hprev i (by omega)
              obtain ⟨h3, h4⟩ := hb1prev i hi
              rw [h1, h2, h3, h4]
              exact ⟨rfl, rfl⟩
            · obtain ⟨g1, g2, g3, g4, g5⟩ := hheaders
              simp only [hblock1] at g1 g2 g3 g4 g5
              exact ⟨g1, g2, g3, g4, g5⟩

/-- `SH2::AllocateCachedBlockLookupBucket` (sh2.cpp lines 540-563): pop
the free list if possible; otherwise grow the pool by one chunk when at
capacity (the external virtual-memory allocation may fail, returning
`kInvalidLookupBucketIndex`, modelled as `none`); then hand out the next
pool index. -/
def allocateCachedBlockLookupBucket (s : BlockCacheState) : Option Nat × BlockCacheState :=
  match s.freeList with
  | i :: rest => (some i, { s with freeList := rest })
  | [] =>
    if s.lookupBucketCount = s.lookupBucketCapacity then
      if s.allocOracle s.allocCount then
        (some s.lookupBucketCount,
          { s with
            allocCount := s.allocCount + 1
            lookupBucketCapacity := s.lookupBucketCapacity + kLookupBucketsPerChunk
            lookupBucketCount := s.lookupBucketCount + 1 })
      else
        (none, { s with allocCount := s.allocCount + 1 })
    else
      (some s.lookupBucketCount, { s with lookupBucketCount := s.lookupBucketCount + 1 })

/-- The chain walk of `SH2::FindOrCreateCachedBlock` (sh2.cpp lines
578-585): follow `lookupOffsetNext` links until an exact
`(startPC, startDelaySlot)` match or the end of the chain.  `fuel` bounds
the walk; the chains maintained by the code are strictly
index-decreasing, so `blocks.length + 1` trips always suffice. -/
def findChain (blocks : List CachedBlock) (pc : Nat) (delaySlot : Bool) :
    Nat → Int → Option Nat
  | 0, _ => none
  | fuel + 1, blockIndex =>
    if 0 ≤ blockIndex then
      let b := blocks.getD blockIndex.toNat {}
      if b.startPC = pc ∧ b.startDelaySlot = delaySlot then some blockIndex.toNat
      else findChain blocks pc delaySlot fuel b.lookupOffsetNext
    else none

/-- Common tail of `SH2::FindOrCreateCachedBlock` (sh2.cpp lines
600-610): append a fresh block keyed `(pc, delaySlot)`, chained in front
of the current offset head of lookup bucket `lbIdx`. -/
def createCachedBlock (s : BlockCacheState) (lbIdx offset page pc : Nat) (delaySlot : Bool) :
    Option Nat × BlockCacheState :=
  let lb := s.lookupBuckets lbIdx
  let block : CachedBlock :=
    { startPC := pc
      startDelaySlot := delaySlot
      startBusPage := page
      lookupOffsetNext := lb.offsetHeads offset }
  let blockIndex := s.blocks.length
  (some blockIndex,
    { s with
      blocks := s.blocks ++ [block]
      lookupBuckets := Function.update s.lookupBuckets lbIdx
        ⟨Function.update lb.offsetHeads offset (Int.ofNat blockIndex)⟩ })

/-- `SH2::FindOrCreateCachedBlock` (sh2.cpp lines 565-611).  Returns
`none` (the source's `kInvalidCachedBlockIndex`) exactly when a lookup
bucket had to be allocated and pool growth failed. -/
def findOrCreateCachedBlock (s : BlockCacheState) (pc : Nat) (delaySlot : Bool) :
    Option Nat × BlockCacheState :=
  let bucket := getCachedBlockBucket pc delaySlot
  let offset := getCachedBlockOffset pc
  let page := bucket >>> 1
  let head := s.bucketHeads bucket
  if 0 ≤ head then
    match findChain s.blocks pc delaySlot (s.blocks.length + 1)
        ((s.lookupBuckets head.toNat).offsetHeads offset) with
    | some idx => (some idx, s)
    | none => createCachedBlock s head.toNat offset page pc delaySlot
  else
    match allocateCachedBlockLookupBucket s with
    | (none, s1) => (none, s1)
    | (some newIdx, s1) =>
      let s2 :=
        { s1 with
          lookupBuckets := Function.update s1.lookupBuckets newIdx ⟨fun _ => -1⟩
          bucketHeads := Function.update s1.bucketHeads bucket (Int.ofNat newIdx)
          activeList := s1.activeList ++ [newIdx] }
      createCachedBlock s2 newIdx offset page pc delaySlot

/-- `SH2::ClearCachedBlocks` (sh2.cpp lines 613-625). -/
def clearCachedBlocks (s : BlockCacheState) : BlockCacheState :=
  let s :=
    s.activeList.foldl
      (fun acc lbIdx =>
        { acc with
          lookupBuckets := Function.update acc.lookupBuckets lbIdx ⟨fun _ => -1⟩
          freeList := lbIdx :: acc.freeList })
      s
  { s with
    activeList := []
    bucketHeads := fun _ => -1
    blocks := []
    cursor := {}
    pageGenerations := fun _ => 0 }

/-- Chain wellformedness maintained by the block cache: every block's
chain link points strictly below its own index, and every chain head of
a lookup bucket referenced from `m_cachedBlockBucketHeads` points below
the block count. -/
def chainInv (s : BlockCacheState) : Prop :=
  (∀ i, i < s.blocks.length → (s.blocks.getD i {}).lookupOffsetNext < (i : Int)) ∧
  (∀ bk, 0 ≤ s.bucketHeads bk →
    ∀ o, (s.lookupBuckets (s.bucketHeads bk).toNat).offsetHeads o < (s.blocks.length : Int))

lemma findChain_some_key (blocks : List CachedBlock) (pc : Nat) (delaySlot : Bool) :
    ∀ fuel bi idx, findChain blocks pc delaySlot fuel bi = some idx →
      (blocks.getD idx {}).startPC = pc ∧ (blocks.getD idx {}).startDelaySlot = delaySlot := by
  intro fuel
  induction fuel with
  | zero => intro bi idx h; simp [findChain] at h
  | succ f ih =>
    intro bi idx h
    simp only [findChain] at h
    split_ifs at h with h0 hkey
    · obtain rfl : bi.toNat = idx := by simpa using h
      exact hkey
    · exact ih _ _ h

lemma findChain_some_lt (blocks : List CachedBlock) (pc : Nat) (delaySlot : Bool)
    (hlinks : ∀ i, i < blocks.length → (blocks.getD i {}).lookupOffsetNext < (i : Int)) :
    ∀ fuel bi idx, bi < (blocks.length : Int) →
      findChain blocks pc delaySlot fuel bi = some idx → idx < blocks.length := by
  intro fuel
  induction fuel with
  | zero => intro bi idx _ h; simp [findChain] at h
  | succ f ih =>
    intro bi idx hbi h
    simp only [findChain] at h
    split_ifs at h with h0 hkey
    · obtain rfl : bi.toNat = idx := by simpa using h
      omega
    · refine ih _ _ ?_ h
      have hlt := hlinks bi.toNat (by omega)
      omega

lemma createCachedBlock_key (s : BlockCacheState) (lbIdx offset page pc : Nat)
    (delaySlot : Bool) (idx : Nat) (s2 : BlockCacheState)
    (h : createCachedBlock s lbIdx offset page pc delaySlot = (some idx, s2)) :
    (s2.blocks.getD idx {}).startPC = pc ∧ (s2.blocks.getD idx {}).startDelaySlot = delaySlot ∧
      idx < s2.blocks.length ∧ s2.blocks.length = s.blocks.length + 1 ∧
      (∀ i d, i < s.blocks.length → s2.blocks.getD i d = s.blocks.getD i d) := by
  simp only [createCachedBlock, Prod.mk.injEq, Option.some.injEq] at h
  obtain ⟨rfl, rfl⟩ := h
  refine ⟨?_, ?_, ?_, by simp, ?_⟩
  · simp [List.getD_eq_getElem?_getD]
  · simp [List.getD_eq_getElem?_getD]
  · simp
  · intro i d hi
    simp [List.getD_eq_getElem?_getD, List.getElem?_append, hi]

/-- The outcome of a successful `FindOrCreateCachedBlock`: the returned
index holds a block keyed exactly `(pc, delaySlot)`, existing blocks keep
their indices, and with wellformed chains the index is in range. -/
lemma findOrCreateCachedBlock_key (s : BlockCacheState) (pc : Nat) (delaySlot : Bool)
    (idx : Nat) (s2 : BlockCacheState)
    (h : findOrCreateCachedBlock s pc delaySlot = (some idx, s2)) :
    (s2.blocks.getD idx {}).startPC = pc ∧ (s2.blocks.getD idx {}).startDelaySlot = delaySlot ∧
      s.blocks.length ≤ s2.blocks.length ∧
      (∀ i d, i < s.blocks.length → s2.blocks.getD i d = s.blocks.getD i d) ∧
      (chainInv s → idx < s2.blocks.length) := by
  simp only [findOrCreateCachedBlock] at h
  split_ifs at h with hhead
  · rcases hfind : findChain s.blocks pc delaySlot (s.blocks.length + 1)
        ((s.lookupBuckets (s.bucketHeads (getCachedBlockBucket pc delaySlot)).toNat).offsetHeads
          (getCachedBlockOffset pc)) with _ | fidx
    · rw [hfind] at h
      obtain ⟨key1, key2, hlt, hlen, hpres⟩ :=
        createCachedBlock_key _ _ _ _ _ _ _ _ h
      exact ⟨key1, key2, by omega, hpres, fun _ => hlt⟩
    · rw [hfind] at h
      simp only [Prod.mk.injEq, Option.some.injEq] at h
      obtain ⟨rfl, rfl⟩ := h
      obtain ⟨key1, key2⟩ := findChain_some_key _ _ _ _ _ _ hfind
      refine ⟨key1, key2, le_refl _, fun _ _ _ => rfl, ?_⟩
      intro hinv
      exact findChain_some_lt _ _ _ hinv.1 _ _ _ (hinv.2 _ hhead _) hfind
  · rcases halloc : allocateCachedBlockLookupBucket s with ⟨_ | newIdx, s1⟩
    · rw [halloc] at h
      simp at h
    · rw [halloc] at h
      obtain ⟨key1, key2, hlt, hlen, hpres⟩ := createCachedBlock_key _ _ _ _ _ _ _ _ h
      have hs1blocks : s1.blocks = s.blocks := by
        simp only [allocateCachedBlockLookupBucket] at halloc
        rcases hfl : s.freeList with _ | ⟨fi, rest⟩ <;> rw [hfl] at halloc
        · split_ifs at halloc <;>
            · simp only [Prod.mk.injEq, Option.some.injEq] at halloc
              rw [← halloc.2]
        · simp only [Prod.mk.injEq, Option.some.injEq] at halloc
          rw [← halloc.2]
      simp only [hs1blocks] at key1 key2 hlt hlen hpres
      exact ⟨key1, key2, by omega, hpres, fun _ => hlt⟩

/-- C8: the lookup-bucket index incorporates the delay-slot flag as its
low bit, so the buckets for the same PC with and without the flag are
always distinct; a successful `FindOrCreateCachedBlock` resolves to a
block keyed exactly `(startPC, startDelaySlot)`; consequently looking up
the same PC with the flag clear and then with it set yields two distinct
cached blocks, never conflated into one. -/
theorem c8_delay_slot_lookup_key_separation (s : BlockCacheState) (pc : Nat) (ds : Bool)
    (i1 i2 : Nat) (s1 s2 : BlockCacheState)
    (hinv : chainInv s)
    (h1 : findOrCreateCachedBlock s pc ds = (some i1, s1))
    (h2 : findOrCreateCachedBlock s1 pc (!ds) = (some i2, s2)) :
    (∀ q, getCachedBlockBucket q true ≠ getCachedBlockBucket q false) ∧
    (s1.blocks.getD i1 {}).startPC = pc ∧
    (s1.blocks.getD i1 {}).startDelaySlot = ds ∧
    (s2.blocks.getD i2 {}).startPC = pc ∧
    (s2.blocks.getD i2 {}).startDelaySlot = (!ds) ∧
    i1 ≠ i2 := by
  obtain ⟨key11, key12, hle1, hpres1, hidx1⟩ := findOrCreateCachedBlock_key _ _ _ _ _ h1
  obtain ⟨key21, key22, hle2, hpres2, hidx2⟩ := findOrCreateCachedBlock_key _ _ _ _ _ h2
  refine ⟨?_, key11, key12, key21, key22, ?_⟩
  · intro q h
    have h0 := congrArg (fun x => Nat.testBit x 0) h
    simp [getCachedBlockBucket, Nat.testBit_or, Nat.testBit_shiftLeft] at h0
  · intro heq
    subst heq
    have hkeep := hpres2 i1 {} (hidx1 hinv)
    rw [hkeep, key12] at key22
    cases ds <;> simp at key22

/-!
Execution machine for the configuration exercised by burst mode and its
single-step reference: `debug = false`, `enableSH2Cache = false`,
`enableBlockCache = true` (`SH2::InterpretNext<false, false, true>`,
`SH2::ExecuteCachedBurstNoSH2Cache`, `SH2::Advance<false, false, true>`).

The CPU core state is split into the fields the dispatch machinery
itself consults (`PC`, `m_delaySlot`, `m_intrPending`, `m_sleep`) and an
opaque payload `δ` (general registers, SR, MAC, PR, GBR, VBR,
`m_delaySlotTarget`, on-chip peripherals) that only the per-opcode
handlers and the interrupt-service code touch.  The opcode handlers and
the decode table live behind an environment record: the decode table is
built in a translation unit outside the sources at hand, and the claims
checked here quantify over programs whose instructions the table flags
as not touching memory, so handlers act on the core alone.
-/

/-- CPU core state visible to the dispatch machinery plus opaque payload. -/
structure Core (δ : Type) where
  pc : Nat
  delaySlot : Bool
  intrPending : Bool
  sleep : Bool
  data : δ

/-- Full modelled SH2 state: core plus block cache. -/
structure Sh2 (δ : Type) where
  core : Core δ
  cache : BlockCacheState

/-- Environment of the execution machine: instruction fetches
(`PeekInstruction<false>` / `FetchInstruction<false>`), the decode table
(`DecodeTable::s_instance.opcodes` and the `mem[instr].anyAccess` flag),
the opcode handlers (`DispatchOpcode<false, false>`, returning the new
core and the cycle cost), and the interrupt-service body of
`InterpretNext` (sh2.cpp lines 2409-2431, returning the core after
`EnterException` plus acknowledge and the cycles of `EnterException`). -/
structure Sh2Env (δ : Type) where
  peek16 : Nat → Nat
  fetch16 : Nat → Nat
  decode : Bool → Nat → OpcodeType
  memAccess : Nat → Bool
  dispatch : OpcodeType → Nat → Core δ → Core δ × Nat
  service : Core δ → Core δ × Nat

/-- `SH2::InterpretNext<false, false, true>` (sh2.cpp lines 2406-2522):
service a pending interrupt, otherwise execute one instruction through
the block cache (with graceful fallback to an uncached fetch when the
lookup-bucket pool cannot grow). -/
def interpretNext {δ : Type} (env : Sh2Env δ) (s : Sh2 δ) : Sh2 δ × Nat :=
  if s.core.intrPending then
    let sc := env.service s.core
    ({ s with core := sc.1 }, sc.2 + 1)
  else
    let currentPC := s.core.pc
    let currentDelaySlot := s.core.delaySlot
    let step1 : CachedBlockCursor × BlockCacheState × Bool :=
      if !s.cache.cursor.valid ∨ s.cache.cursor.expectedPC ≠ currentPC ∨
          s.cache.cursor.expectedDelaySlot ≠ currentDelaySlot then
        match findOrCreateCachedBlock s.cache currentPC currentDelaySlot with
        | (none, cacheA) => ({ s.cache.cursor with valid := false }, cacheA, false)
        | (some bi, cacheA) =>
          ({ blockIndex := bi, instructionIndex := 0, expectedPC := currentPC,
             expectedDelaySlot := currentDelaySlot, valid := true }, cacheA, true)
      else (s.cache.cursor, s.cache, true)
    let cursor1 := step1.1
    let cache1 := step1.2.1
    let step2 : CachedBlockCursor × Bool :=
      if step1.2.2 ∧ cache1.blocks.length ≤ cursor1.blockIndex then
        ({ cursor1 with valid := false }, false)
      else (cursor1, step1.2.2)
    let cursor2 := step2.1
    if step2.2 then
      let block := cache1.blocks.getD cursor2.blockIndex {}
      let needsEntryRebuild := cursor2.instructionIndex = 0 ∧
        (block.instructionCount = 0 ∨ block.startPC ≠ currentPC ∨
          block.startDelaySlot ≠ currentDelaySlot ∨
          block.busPageGeneration ≠ cache1.pageGenerations block.startBusPage)
      let needsRangeRebuild := block.instructionCount ≤ cursor2.instructionIndex
      let step3 : CachedBlock × CachedBlockCursor × List CachedBlock :=
        if needsEntryRebuild ∨ needsRangeRebuild then
          let nb := buildCachedBlock env.peek16 env.decode cache1.pageGenerations block
            currentPC currentDelaySlot
          (nb, { cursor2 with instructionIndex := 0 }, cache1.blocks.set cursor2.blockIndex nb)
        else (block, cursor2, cache1.blocks)
      let block2 := step3.1
      let cursor3 := step3.2.1
      let instr := block2.instructions cursor3.instructionIndex
      let opcode := block2.decodedOpcodes cursor3.instructionIndex
      let cursor4 :=
        if cursor3.instructionIndex + 1 < block2.instructionCount then
          { cursor3 with
            instructionIndex := cursor3.instructionIndex + 1
            expectedPC := u32 (currentPC + 2)
            expectedDelaySlot := false }
        else { cursor3 with valid := false }
      let dc := env.dispatch opcode instr s.core
      ({ core := dc.1, cache := { cache1 with blocks := step3.2.2, cursor := cursor4 } }, dc.2)
    else
      let instr := env.fetch16 currentPC
      let opcode := env.decode currentDelaySlot instr
      let dc := env.dispatch opcode instr s.core
      ({ core := dc.1, cache := { cache1 with cursor := cursor2 } }, dc.2)

/-- Stop reasons of the burst loop (`SH2::BurstStopReason`). -/
inductive BurstStopReason where
  | cycleBudget
  | interruptPending
  | fallback
  | blockInvalid
  | blockEnd
  | opCap
  | unsafeMemoryOp
  deriving DecidableEq, Repr

/-- `SH2::BurstExecResult`.  `stopReason` is always set on exit; `none`
is the value-initialized state before the loop decides. -/
structure BurstExecResult where
  cyclesRetired : Nat := 0
  opsRetired : Nat := 0
  madeProgress : Bool := false
  stopReason : Option BurstStopReason := none
  deriving DecidableEq, Repr

/-- The `while (true)` retirement loop of
`SH2::ExecuteCachedBurstNoSH2Cache` (sh2.cpp lines 2340-2401).  `fuel`
bounds the trip count; `opsRetired` grows every iteration that loops, so
`kCachedBurstMaxOpsP91 + 1` trips always suffice. -/
def burstLoop {δ : Type} (env : Sh2Env δ) :
    Nat → Sh2 δ → Nat → BurstExecResult → Sh2 δ × BurstExecResult
  | 0, s, _, res => (s, res)
  | fuel + 1, s, remaining, res =>
    if remaining ≤ res.cyclesRetired then
      (s, { res with stopReason := some BurstStopReason.cycleBudget })
    else if kCachedBurstMaxOpsP91 ≤ res.opsRetired then
      (s, { res with stopReason := some BurstStopReason.opCap })
    else if !s.cache.cursor.valid ∨ s.cache.blocks.length ≤ s.cache.cursor.blockIndex then
      ({ s with cache := { s.cache with cursor := { s.cache.cursor with valid := false } } },
        { res with stopReason := some BurstStopReason.blockInvalid })
    else
      let currBlock := s.cache.blocks.getD s.cache.cursor.blockIndex {}
      if currBlock.instructionCount ≤ s.cache.cursor.instructionIndex then
        ({ s with cache := { s.cache with cursor := { s.cache.cursor with valid := false } } },
          { res with stopReason := some BurstStopReason.blockEnd })
      else
        let opPC := s.core.pc
        let opDelaySlot := s.core.delaySlot
        if s.cache.cursor.expectedPC ≠ opPC ∨ s.cache.cursor.expectedDelaySlot ≠ opDelaySlot then
          ({ s with cache := { s.cache with cursor := { s.cache.cursor with valid := false } } },
            { res with stopReason := some BurstStopReason.blockInvalid })
        else
          let instr := currBlock.instructions s.cache.cursor.instructionIndex
          if env.memAccess instr then
            (s, { res with stopReason := some BurstStopReason.unsafeMemoryOp })
          else
            let opcode := currBlock.decodedOpcodes s.cache.cursor.instructionIndex
            let dc := env.dispatch opcode instr s.core
            let res1 : BurstExecResult :=
              { res with
                madeProgress := true
                cyclesRetired := res.cyclesRetired + dc.2
                opsRetired := res.opsRetired + 1 }
            if s.cache.cursor.instructionIndex + 1 < currBlock.instructionCount then
              let s1 : Sh2 δ :=
                { core := dc.1
                  cache :=
                    { s.cache with
                      cursor :=
                        { s.cache.cursor with
                          instructionIndex := s.cache.cursor.instructionIndex + 1
                          expectedPC := u32 (opPC + 2)
                          expectedDelaySlot := false } } }
              if dc.1.intrPending then
                (s1, { res1 with stopReason := some BurstStopReason.interruptPending })
              else
                burstLoop env fuel s1 remaining res1
            else
              ({ core := dc.1
                 cache := { s.cache with cursor := { s.cache.cursor with valid := false } } },
                { res1 with stopReason := some BurstStopReason.blockEnd })

/-- `SH2::ExecuteCachedBurstNoSH2Cache` (sh2.cpp lines 2282-2404): entry
checks (budget, pending interrupt), cursor setup via lookup-or-create
with fail-soft fallback, staleness checks and rebuild, then the
retirement loop. -/
def executeCachedBurstNoSH2Cache {δ : Type} (env : Sh2Env δ) (s : Sh2 δ)
    (remainingCycles : Nat) : Sh2 δ × BurstExecResult :=
  if remainingCycles = 0 then
    (s, { stopReason := some BurstStopReason.cycleBudget })
  else if s.core.intrPending then
    (s, { stopReason := some BurstStopReason.interruptPending })
  else
    let currentPC := s.core.pc
    let currentDelaySlot := s.core.delaySlot
    let step1 : CachedBlockCursor × BlockCacheState × Bool :=
      if !s.cache.cursor.valid ∨ s.cache.cursor.expectedPC ≠ currentPC ∨
          s.cache.cursor.expectedDelaySlot ≠ currentDelaySlot then
        match findOrCreateCachedBlock s.cache currentPC currentDelaySlot with
        | (none, cacheA) => ({ s.cache.cursor with valid := false }, cacheA, false)
        | (some bi, cacheA) =>
          ({ blockIndex := bi, instructionIndex := 0, expectedPC := currentPC,
             expectedDelaySlot := currentDelaySlot, valid := true }, cacheA, true)
      else (s.cache.cursor, s.cache, true)
    let cursorA := step1.1
    let cacheA := step1.2.1
    if !step1.2.2 then
      ({ s with cache := { cacheA with cursor := cursorA } },
        { stopReason := some BurstStopReason.fallback })
    else if cacheA.blocks.length ≤ cursorA.blockIndex then
      ({ s with cache := { cacheA with cursor := { cursorA with valid := false } } },
        { stopReason := some BurstStopReason.blockInvalid })
    else
      let block := cacheA.blocks.getD cursorA.blockIndex {}
      let needsEntryRebuild := cursorA.instructionIndex = 0 ∧
        (block.instructionCount = 0 ∨ block.startPC ≠ currentPC ∨
          block.startDelaySlot ≠ currentDelaySlot ∨
          block.busPageGeneration ≠ cacheA.pageGenerations block.startBusPage)
      let needsRangeRebuild := block.instructionCount ≤ cursorA.instructionIndex
      let step3 : CachedBlock × CachedBlockCursor × List CachedBlock :=
        if needsEntryRebuild ∨ needsRangeRebuild then
          let nb := buildCachedBlock env.peek16 env.decode cacheA.pageGenerations block
            currentPC currentDelaySlot
          (nb, { cursorA with instructionIndex := 0 }, cacheA.blocks.set cursorA.blockIndex nb)
        else (block, cursorA, cacheA.blocks)
      let block2 := step3.1
      let cursorB := step3.2.1
      if block2.instructionCount = 0 ∨ block2.instructionCount ≤ cursorB.instructionIndex then
        ({ s with
            cache :=
              { cacheA with blocks := step3.2.2, cursor := { cursorB with valid := false } } },
          { stopReason := some BurstStopReason.blockInvalid })
      else
        burstLoop env (kCachedBurstMaxOpsP91 + 1)
          { s with cache := { cacheA with blocks := step3.2.2, cursor := cursorB } }
          remainingCycles {}

/-- The instruction-interpretation `while` loop of
`SH2::Advance<false, false, true>` (sh2.cpp lines 360-411): try the burst
path when enabled, fall back to one `InterpretNext` when it made no
progress, accumulating executed cycles until the budget is met.  `fuel`
bounds the trip count; every iteration consumes at least one cycle when
opcode handlers do, so `budget + 1` trips always suffice. -/
def advanceLoop {δ : Type} (env : Sh2Env δ) (burstEnabled : Bool) (budget : Nat) :
    Nat → Sh2 δ → Nat → Sh2 δ × Nat
  | 0, s, cyclesExecuted => (s, cyclesExecuted)
  | fuel + 1, s, cyclesExecuted =>
    if budget ≤ cyclesExecuted then (s, cyclesExecuted)
    else
      let br :=
        if burstEnabled then executeCachedBurstNoSH2Cache env s (budget - cyclesExecuted)
        else (s, {})
      let cyclesExecuted1 := cyclesExecuted + br.2.cyclesRetired
      if br.2.madeProgress then advanceLoop env burstEnabled budget fuel br.1 cyclesExecuted1
      else
        let sn := interpretNext env br.1
        advanceLoop env burstEnabled budget fuel sn.1 (cyclesExecuted1 + sn.2)

/-- `SH2::Advance<false, false, true>` (sh2.cpp lines 335-414) without
the on-chip peripheral advancement (`AdvanceWDT`/`AdvanceFRT`/
`AdvanceDMA`), which act on peripheral state outside this model: sleep
short-circuit (wake on a pending interrupt), then the interpretation
loop starting from the spillover cycles. -/
def advance {δ : Type} (env : Sh2Env δ) (burstEnabled : Bool) (cycles spilloverCycles : Nat)
    (s : Sh2 δ) : Sh2 δ × Nat :=
  if s.core.sleep then
    if s.core.intrPending then
      let s1 : Sh2 δ :=
        { s with core := { s.core with sleep := false, pc := u32 (s.core.pc + 2) } }
      advanceLoop env burstEnabled cycles (cycles + 1) s1 spilloverCycles
    else (s, cycles)
  else advanceLoop env burstEnabled cycles (cycles + 1) s spilloverCycles

/-- `n` consecutive `SH2::Step<false, false, true>()` calls (each one
`InterpretNext` invocation, sh2.cpp lines 425-433, again without the
peripheral advancement), returning the final state and the total of the
returned cycle counts. -/
def runSteps {δ : Type} (env : Sh2Env δ) : Nat → Sh2 δ → Sh2 δ × Nat
  | 0, s => (s, 0)
  | n + 1, s =>
    let s1 := interpretNext env s
    let s2 := runSteps env n s1.1
    (s2.1, s1.2 + s2.2)

/-- A freshly cleared block cache (all chain heads empty, allocation
succeeding), used to instantiate theorems at concrete inputs. -/
def emptyCache : BlockCacheState where
  blocks := []
  cursor := {}
  pageGenerations := fun _ => 0
  bucketHeads := fun _ => -1
  lookupBuckets := fun _ => ⟨fun _ => -1⟩
  lookupBucketCount := 0
  lookupBucketCapacity := 0
  freeList := []
  activeList := []
  allocOracle := fun _ => true
  allocCount := 0

/-- C6: when the lookup-bucket pool cannot grow (no free bucket, pool at
capacity, chunk allocation failing), `FindOrCreateCachedBlock` returns
the invalid block index and leaves every cache field untouched; the
interpreter then falls back to an uncached fetch for that instruction
only — it executes the fetched instruction normally (no abort), merely
invalidating the cursor; a lookup fails in this way only under exactly
those pool-growth-failure conditions, so later instructions use the
block cache again as soon as allocation succeeds; and the burst caller
fails soft too: `ExecuteCachedBurstNoSH2Cache` returns the `Fallback`
stop reason with no progress, no cycles retired, and no cache change
beyond the failed-allocation count and the invalidated cursor, whereupon
the `Advance` loop continues by handing exactly that state to one
`InterpretNext` — which, while allocation keeps failing, performs the
same uncached fetch-and-execute. -/
theorem c6_lookup_pool_exhaustion_fails_soft {δ : Type} (env : Sh2Env δ) (s : Sh2 δ)
    (hmiss : ¬(s.cache.cursor.valid = true ∧ s.cache.cursor.expectedPC = s.core.pc ∧
      s.cache.cursor.expectedDelaySlot = s.core.delaySlot))
    (hnointr : s.core.intrPending = false)
    (hhead : s.cache.bucketHeads (getCachedBlockBucket s.core.pc s.core.delaySlot) < 0)
    (hfree : s.cache.freeList = [])
    (hcap : s.cache.lookupBucketCount = s.cache.lookupBucketCapacity)
    (hfail : s.cache.allocOracle s.cache.allocCount = false) :
    findOrCreateCachedBlock s.cache s.core.pc s.core.delaySlot =
      (none, { s.cache with allocCount := s.cache.allocCount + 1 }) ∧
    interpretNext env s =
      ({ core := (env.dispatch (env.decode s.core.delaySlot (env.fetch16 s.core.pc))
            (env.fetch16 s.core.pc) s.core).1
         cache :=
          { s.cache with
            allocCount := s.cache.allocCount + 1
            cursor := { s.cache.cursor with valid := false } } },
        (env.dispatch (env.decode s.core.delaySlot (env.fetch16 s.core.pc))
          (env.fetch16 s.core.pc) s.core).2) ∧
    (∀ c2 pc2 ds2, (findOrCreateCachedBlock c2 pc2 ds2).1 = none ↔
      (c2.bucketHeads (getCachedBlockBucket pc2 ds2) < 0 ∧ c2.freeList = [] ∧
        c2.lookupBucketCount = c2.lookupBucketCapacity ∧
        c2.allocOracle c2.allocCount = false)) ∧
    (∀ remaining, ¬(remaining = 0) →
      executeCachedBurstNoSH2Cache env s remaining =
        ({ s with
            cache :=
              { s.cache with
                allocCount := s.cache.allocCount + 1
                cursor := { s.cache.cursor with valid := false } } },
          { stopReason := some BurstStopReason.fallback })) ∧
    (∀ budget fuel cyclesExecuted, cyclesExecuted < budget →
      advanceLoop env true budget (fuel + 1) s cyclesExecuted =
        advanceLoop env true budget fuel
          (interpretNext env
            { s with
              cache :=
                { s.cache with
                  allocCount := s.cache.allocCount + 1
                  cursor := { s.cache.cursor with valid := false } } }).1
          (cyclesExecuted +
            (interpretNext env
              { s with
                cache :=
                  { s.cache with
                    allocCount := s.cache.allocCount + 1
                    cursor := { s.cache.cursor with valid := false } } }).2)) ∧
    (s.cache.allocOracle (s.cache.allocCount + 1) = false →
      interpretNext env
          { s with
            cache :=
              { s.cache with
                allocCount := s.cache.allocCount + 1
                cursor := { s.cache.cursor with valid := false } } } =
        ({ core := (env.dispatch (env.decode s.core.delaySlot (env.fetch16 s.core.pc))
              (env.fetch16 s.core.pc) s.core).1
           cache :=
            { s.cache with
              allocCount := s.cache.allocCount + 2
              cursor := { s.cache.cursor with valid := false } } },
          (env.dispatch (env.decode s.core.delaySlot (env.fetch16 s.core.pc))
            (env.fetch16 s.core.pc) s.core).2)) := by
  have hfind : ∀ c2 pc2 ds2,
      c2.bucketHeads (getCachedBlockBucket pc2 ds2) < 0 → c2.freeList = [] →
      c2.lookupBucketCount = c2.lookupBucketCapacity → c2.allocOracle c2.allocCount = false →
      findOrCreateCachedBlock c2 pc2 ds2 = (none, { c2 with allocCount := c2.allocCount + 1 }) := by
    intro c2 pc2 ds2 hh hf hc ho
    simp only [findOrCreateCachedBlock, if_neg (by omega : ¬(0 ≤ c2.bucketHeads
      (getCachedBlockBucket pc2 ds2))), allocateCachedBlockLookupBucket, hf, hc, ho]
    simp
  have hfindnone : ∀ c2 pc2 ds2, (findOrCreateCachedBlock c2 pc2 ds2).1 = none ↔
      (c2.bucketHeads (getCachedBlockBucket pc2 ds2) < 0 ∧ c2.freeList = [] ∧
        c2.lookupBucketCount = c2.lookupBucketCapacity ∧
        c2.allocOracle c2.allocCount = false) := by
    intro c2 pc2 ds2
    constructor
    · intro hnone
      simp only [findOrCreateCachedBlock] at hnone
      split_ifs at hnone with hh
      · rcases hfc : findChain c2.blocks pc2 ds2 (c2.blocks.length + 1)
            ((c2.lookupBuckets (c2.bucketHeads (getCachedBlockBucket pc2 ds2)).toNat).offsetHeads
              (getCachedBlockOffset pc2)) with _ | fidx
        · rw [hfc] at hnone
          simp [createCachedBlock] at hnone
        · rw [hfc] at hnone
          simp at hnone
      · rcases hal : allocateCachedBlockLookupBucket c2 with ⟨r, c3⟩
        rw [hal] at hnone
        rcases r with _ | newIdx
        · simp only [allocateCachedBlockLookupBucket] at hal
          rcases hf : c2.freeList with _ | ⟨fi, rest⟩ <;> rw [hf] at hal
          · split_ifs at hal with h1 h2
            · simp at hal
            · exact ⟨by omega, rfl, h1, by simpa using h2⟩
            · simp at hal
          · simp at hal
        · simp [createCachedBlock] at hnone
    · rintro ⟨hh, hf, hc, ho⟩
      rw [hfind c2 pc2 ds2 hh hf hc ho]
  have hfs := hfind s.cache s.core.pc s.core.delaySlot hhead hfree hcap hfail
  have hmiss2 : ((!s.cache.cursor.valid) = true) ∨ s.cache.cursor.expectedPC ≠ s.core.pc ∨
      s.cache.cursor.expectedDelaySlot ≠ s.core.delaySlot := by
    rcases hv : s.cache.cursor.valid with _ | _
    · simp
    · push_neg at hmiss
      right
      rcases Classical.em (s.cache.cursor.expectedPC = s.core.pc) with he | he
      · exact Or.inr (hmiss hv he)
      · exact Or.inl he
  have hburst : ∀ remaining, ¬(remaining = 0) →
      executeCachedBurstNoSH2Cache env s remaining =
        ({ s with
            cache :=
              { s.cache with
                allocCount := s.cache.allocCount + 1
                cursor := { s.cache.cursor with valid := false } } },
          { stopReason := some BurstStopReason.fallback }) := by
    intro remaining hrem
    simp only [executeCachedBurstNoSH2Cache, hnointr]
    rw [if_neg hrem]
    rw [if_neg (by simp)]
    rw [if_pos hmiss2, hfs]
    simp
  refine ⟨hfs, ?_, hfindnone, hburst, ?_, ?_⟩
  · simp only [interpretNext, hnointr]
    rw [if_neg (by simp)]
    rw [if_pos hmiss2, hfs]
    simp
  · intro budget fuel cyclesExecuted hcyc
    simp only [advanceLoop]
    rw [if_neg (show ¬(budget ≤ cyclesExecuted) from by omega)]
    rw [if_pos True.intro]
    rw [hburst (budget - cyclesExecuted) (by omega)]
    rw [if_neg (show ¬(({ stopReason := some BurstStopReason.fallback } :
      BurstExecResult).madeProgress = true) from by simp)]
    rfl
  · intro hfail2
    have hfsFB : findOrCreateCachedBlock
        ({ s.cache with
            allocCount := s.cache.allocCount + 1
            cursor := { s.cache.cursor with valid := false } } : BlockCacheState)
          s.core.pc s.core.delaySlot =
        (none, { s.cache with
            allocCount := s.cache.allocCount + 2
            cursor := { s.cache.cursor with valid := false } }) :=
      hfind ({ s.cache with
          allocCount := s.cache.allocCount + 1
          cursor := { s.cache.cursor with valid := false } } : BlockCacheState)
        s.core.pc s.core.delaySlot hhead hfree hcap hfail2
    simp only [interpretNext, hnointr]
    rw [if_neg (by simp)]
    rw [if_pos (show ((!({ s.cache.cursor with valid := false } :
        CachedBlockCursor).valid) = true) ∨
        ({ s.cache.cursor with valid := false } : CachedBlockCursor).expectedPC ≠ s.core.pc ∨
        ({ s.cache.cursor with valid := false } : CachedBlockCursor).expectedDelaySlot ≠
          s.core.delaySlot from Or.inl rfl)]
    rw [hfsFB]
    simp

/-- A trivial opcode-handler environment over a unit payload, used to
instantiate theorems at concrete inputs. -/
def unitEnv : Sh2Env Unit where
  peek16 := fun _ => 9
  fetch16 := fun _ => 9
  decode := fun _ _ => OpcodeType.other 0
  memAccess := fun _ => false
  dispatch := fun _ _ c => (c, 1)
  service := fun c => (c, 5)

/-- A concrete machine state whose next chunk allocation fails, used to
instantiate theorems at concrete inputs. -/
def failAllocState : Sh2 Unit where
  core := { pc := 0x1000, delaySlot := false, intrPending := false, sleep := false, data := () }
  cache := { emptyCache with allocOracle := fun _ => false }

theorem c6_lookup_pool_exhaustion_fails_soft_witness :
    (failAllocState.cache.freeList = [] ∧
      failAllocState.cache.lookupBucketCount = failAllocState.cache.lookupBucketCapacity ∧
      failAllocState.cache.allocOracle failAllocState.cache.allocCount = false) ∧
    findOrCreateCachedBlock failAllocState.cache failAllocState.core.pc
        failAllocState.core.delaySlot =
      (none,
        { failAllocState.cache with allocCount := failAllocState.cache.allocCount + 1 }) ∧
    executeCachedBurstNoSH2Cache unitEnv failAllocState 5 =
      ({ failAllocState with
          cache :=
            { failAllocState.cache with
              allocCount := failAllocState.cache.allocCount + 1
              cursor := { failAllocState.cache.cursor with valid := false } } },
        { stopReason := some BurstStopReason.fallback }) :=
  ⟨⟨by decide, by decide, by decide⟩,
    (c6_lookup_pool_exhaustion_fails_soft unitEnv failAllocState (by decide) (by decide)
      (by decide) (by decide) (by decide) (by decide)).1,
    (c6_lookup_pool_exhaustion_fails_soft unitEnv failAllocState (by decide) (by decide)
      (by decide) (by decide) (by decide) (by decide)).2.2.2.1 5 (by decide)⟩

/-!
Delay-slot interrupt-suppression model (the state fields and helpers of
sh2.cpp that govern `m_delaySlot` and `m_intrPending`).
-/

/-- The SH2 state fields governing delay slots and interrupt service:
`PC`, `m_delaySlot`, `m_delaySlotTarget`, `m_intrPending`,
`INTC.pending.level` and `SR.ILevel`. -/
structure DsState where
  pc : Nat
  delaySlot : Bool
  delaySlotTarget : Nat
  intrPending : Bool
  pendingLevel : Nat
  srILevel : Nat
  deriving DecidableEq, Repr

/-- `SH2::SetupDelaySlot` (sh2.cpp lines 2124-2128): arm the delay slot
and explicitly clear the pending-interrupt flag. -/
def setupDelaySlot (target : Nat) (s : DsState) : DsState :=
  { s with delaySlot := true, delaySlotTarget := target, intrPending := false }

/-- `SH2::AdvancePC<true>` (sh2.cpp lines 2131-2139): resolve the delay
slot and recompute the pending-interrupt flag from
`INTC.pending.level > SR.ILevel`. -/
def advancePCDelay (s : DsState) : DsState :=
  { s with
    pc := s.delaySlotTarget
    delaySlot := false
    intrPending := decide (s.srILevel < s.pendingLevel) }

/-- `SH2::AdvancePC<false>`: `PC += 2`. -/
def advancePCNormal (s : DsState) : DsState :=
  { s with pc := u32 (s.pc + 2) }

/-- Modelled from the spec: `SH2::RaiseInterrupt` lives in the SH2
header, which is not among the sources at hand.  Per the spec the
pending slot holds the currently-winning `{level, source, vector}`, and
`m_intrPending` is explicitly cleared while a delay slot is armed and
recomputed when it resolves, so a raise updates the pending level only
upward and recomputes the flag under the not-in-delay-slot guard — the
same `!delaySlot && INTC.pending.level > SR.ILevel` recomputation the
sources use in `LDCSR`, `LDCMSR` and `LoadState`. -/
def dsRaiseInterrupt (level : Nat) (s : DsState) : DsState :=
  if s.pendingLevel < level then
    { s with
      pendingLevel := level
      intrPending := (!s.delaySlot) && decide (s.srILevel < level) }
  else s

/-- One instruction-grained (or peripheral) event of the delay-slot /
interrupt machinery. -/
inductive DsOp where
  | normal
  | delayedBranch (target : Nat)
  | ldcSR (ilevel : Nat)
  | raiseIntr (level : Nat)
  | recalc (level : Nat)
  | loadState (d : Bool) (target plevel ilevel newPC : Nat)

/-- Effect of one event on the delay-slot machinery: a register-only
instruction ends with `AdvancePC<delaySlot>`; a delayed branch is
`SetupDelaySlot(target); PC += 2` (e.g. `SH2::BRA`, sh2.cpp lines
3923-3927); `LDC Rm, SR` recomputes the flag under the
`!delaySlot` guard before advancing (sh2.cpp lines 3057-3064);
`RecalcInterrupts` first resets the pending interrupt and clears the
flag (sh2.cpp lines 1982-1984) before raising the winning source; and
`LoadState` recomputes the flag as `!m_delaySlot && pending > ILevel`
(sh2.cpp line 700). -/
def dsExecOp : DsOp → DsState → DsState
  | DsOp.normal, s =>
    if s.delaySlot then advancePCDelay s else advancePCNormal s
  | DsOp.delayedBranch t, s =>
    let s1 := setupDelaySlot t s
    { s1 with pc := u32 (s1.pc + 2) }
  | DsOp.ldcSR il, s =>
    let ds := s.delaySlot
    let s1 :=
      { s with
        srILevel := il
        intrPending := (!ds) && decide (il < s.pendingLevel) }
    if ds then advancePCDelay s1 else advancePCNormal s1
  | DsOp.raiseIntr l, s => dsRaiseInterrupt l s
  | DsOp.recalc l, s =>
    dsRaiseInterrupt l { s with pendingLevel := 0, intrPending := false }
  | DsOp.loadState d t pl il npc, _ =>
    { pc := npc
      delaySlot := d
      delaySlotTarget := t
      intrPending := (!d) && decide (il < pl)
      pendingLevel := pl
      srILevel := il }

/-- Interrupt service as `InterpretNext` performs it (sh2.cpp lines
2408-2432): taken only when `m_intrPending` is set at the start of an
instruction; jumps to the handler (the vector fetch is abstracted by
`handlerOf`), raises the interrupt mask and clears the flag. -/
def dsService (handlerOf : DsState → Nat) (s : DsState) : DsState :=
  { s with
    pc := handlerOf s
    srILevel := min s.pendingLevel 15
    intrPending := false }

/-- One `InterpretNext` round: service if and only if `m_intrPending`
is set at the start of the instruction, else execute the event. -/
def dsStep (handlerOf : DsState → Nat) (op : DsOp) (s : DsState) : DsState :=
  if s.intrPending then dsService handlerOf s else dsExecOp op s

/-- A sequence of rounds. -/
def dsRun (handlerOf : DsState → Nat) (ops : List DsOp) (s : DsState) : DsState :=
  ops.foldl (fun acc op => dsStep handlerOf op acc) s

/-- C4's invariant: whenever a delay slot is armed, no interrupt is
flagged pending. -/
def dsInv (s : DsState) : Prop :=
  s.delaySlot = true → s.intrPending = false

lemma dsInv_exec (s : DsState) (op : DsOp) (h : dsInv s) : dsInv (dsExecOp op s) := by
  cases op with
  | normal =>
    rcases hd : s.delaySlot with _ | _
    · intro hds
      simp [dsExecOp, hd, advancePCNormal] at hds
    · intro hds
      simp [dsExecOp, hd, advancePCDelay] at hds
  | delayedBranch t =>
    intro _
    rfl
  | ldcSR il =>
    rcases hd : s.delaySlot with _ | _
    · intro hds
      simp [dsExecOp, hd, advancePCNormal] at hds
    · intro hds
      simp [dsExecOp, hd, advancePCDelay] at hds
  | raiseIntr l =>
    simp only [dsExecOp, dsRaiseInterrupt]
    split_ifs with hl
    · intro hds
      have hsd : s.delaySlot = true := hds
      show (!s.delaySlot && decide (s.srILevel < l)) = false
      rw [hsd]
      rfl
    · exact h
  | recalc l =>
    simp only [dsExecOp, dsRaiseInterrupt]
    split_ifs with hl
    · intro hds
      have hsd : s.delaySlot = true := hds
      show (!s.delaySlot && decide (s.srILevel < l)) = false
      rw [hsd]
      rfl
    · intro _
      rfl
  | loadState d t pl il npc =>
    intro hds
    have hsd : d = true := hds
    show (!d && decide (il < pl)) = false
    rw [hsd]
    rfl

lemma dsInv_step (handlerOf : DsState → Nat) (s : DsState) (op : DsOp) (h : dsInv s) :
    dsInv (dsStep handlerOf op s) := by
  unfold dsStep
  split_ifs with hp
  · intro _
    rfl
  · exact dsInv_exec s op h

/-- C4: whenever a delay slot is armed, `m_intrPending` is false — the
invariant is preserved by every event of the machinery, starting from
any state satisfying it; interrupt service happens only when
`m_intrPending` is set at the start of an instruction, so under the
invariant a round that begins with a delay slot armed always executes
the delay-slot instruction and never services an interrupt; and the
flag is recomputed from the pending interrupt level versus the
status-register interrupt mask exactly when the delay slot resolves. -/
theorem c4_delay_slot_interrupt_deferral (handlerOf : DsState → Nat) (ops : List DsOp)
    (s0 : DsState) (h0 : dsInv s0) :
    dsInv (dsRun handlerOf ops s0) ∧
    (∀ s op, dsInv s → s.delaySlot = true → dsStep handlerOf op s = dsExecOp op s) ∧
    (∀ s, s.delaySlot = true →
      (dsExecOp DsOp.normal s).intrPending = decide (s.srILevel < s.pendingLevel) ∧
      (dsExecOp DsOp.normal s).delaySlot = false ∧
      (dsExecOp DsOp.normal s).pc = s.delaySlotTarget) := by
  refine ⟨?_, ?_, ?_⟩
  · induction ops generalizing s0 with
    | nil => exact h0
    | cons op rest ih => exact ih (dsStep handlerOf op s0) (dsInv_step handlerOf s0 op h0)
  · intro s op hinv hds
    unfold dsStep
    rw [if_neg (by simp [hinv hds])]
  · intro s hds
    simp [dsExecOp, hds, advancePCDelay]

theorem c4_delay_slot_interrupt_deferral_witness :
    dsInv ⟨0x1000, false, 0, false, 0, 0⟩ ∧
      dsInv (dsRun (fun _ => 0x4000)
        [DsOp.delayedBranch 0x2000, DsOp.raiseIntr 5, DsOp.normal] ⟨0x1000, false, 0, false, 0, 0⟩) :=
  ⟨by intro h; rfl,
    (c4_delay_slot_interrupt_deferral (fun _ => 0x4000)
      [DsOp.delayedBranch 0x2000, DsOp.raiseIntr 5, DsOp.normal] ⟨0x1000, false, 0, false, 0, 0⟩
      (by intro h; rfl)).1⟩

/-!
Interrupt controller model (`SH2::RecalcInterrupts`, sh2.cpp lines
1978-2063).  Model note: `INTC.GetLevel` and `SH2::RaiseInterrupt` are
declared in the SH2 header, which is not among the sources at hand;
levels are a state function and the raise is modelled from the spec.
-/

/-- The interrupt sources walked by `RecalcInterrupts`. -/
inductive InterruptSource where
  | none
  | NMI
  | UserBreak
  | IRL
  | DIVU_OVFI
  | DMAC0_XferEnd
  | DMAC1_XferEnd
  | WDT_ITI
  | BSC_REF_CMI
  | SCI_ERI
  | SCI_RXI
  | SCI_TXI
  | SCI_TEI
  | FRT_ICI
  | FRT_OCI
  | FRT_OVI
  deriving DecidableEq, Repr

/-- The state consulted by `RecalcInterrupts`: the per-source trigger
and enable flags, per-source levels (`INTC.GetLevel`), the pending slot
(`INTC.pending`), `m_intrPending`, and the delay-slot/interrupt-mask
context of the flag recomputation. -/
structure IntcState where
  nmi : Bool
  divuOVF : Bool
  divuOVFIE : Bool
  dmaDME : Bool
  dma0End : Bool
  dma0IrqEnable : Bool
  dma1End : Bool
  dma1IrqEnable : Bool
  wdtOVF : Bool
  wdtWTnIT : Bool
  frtICF : Bool
  frtICIE : Bool
  frtOCFA : Bool
  frtOCIAE : Bool
  frtOCFB : Bool
  frtOCIBE : Bool
  frtOVF : Bool
  frtOVIE : Bool
  levels : InterruptSource → Nat
  pendingLevel : Nat
  pendingSource : InterruptSource
  intrPending : Bool
  delaySlot : Bool
  srILevel : Nat

/-- The reset preamble of `RecalcInterrupts` (sh2.cpp lines 1982-1984):
pending level 0, source none, flag cleared. -/
def intcReset (s : IntcState) : IntcState :=
  { s with
    pendingLevel := 0
    pendingSource := InterruptSource.none
    intrPending := false }

/-- Modelled from the spec: `SH2::RaiseInterrupt` lives in the SH2
header, which is not among the sources at hand.  Per the spec the
pending slot holds the currently-winning `{level, source, vector}`
(`// fallthrough; IRL may have lower priority than other interrupts`,
sh2.cpp line 2001, and the `UpdateInterruptLevels` comments at lines
1966-1970 confirm that the slot keeps the highest-priority source), so
a raise replaces the pending entry exactly when the source's level is
strictly higher, recomputing `m_intrPending` under the not-in-delay-slot
guard used throughout the sources. -/
def intcRaise (src : InterruptSource) (s : IntcState) : IntcState :=
  if s.pendingLevel < s.levels src then
    { s with
      pendingLevel := s.levels src
      pendingSource := src
      intrPending := (!s.delaySlot) && decide (s.srILevel < s.levels src) }
  else s

/-- `SH2::RecalcInterrupts` (sh2.cpp lines 1978-2063): reset the
pending interrupt, then walk the sources in the fixed order; NMI
returns immediately, an eligible external IRL is raised but falls
through (`// fallthrough; IRL may have lower priority than other
interrupts`), and the first eligible source of the rest of the walk is
raised and ends the walk.  The bus-error and serial sources are
commented out (`// TODO`) and never eligible. -/
def recalcInterrupts (s : IntcState) : IntcState :=
  let s0 := intcReset s
  if s.nmi then intcRaise InterruptSource.NMI s0
  else
    let s1 := if 0 < s.levels InterruptSource.IRL then intcRaise InterruptSource.IRL s0 else s0
    if s.divuOVF && s.divuOVFIE then intcRaise InterruptSource.DIVU_OVFI s1
    else if s.dmaDME && s.dma0End && s.dma0IrqEnable then
      intcRaise InterruptSource.DMAC0_XferEnd s1
    else if s.dmaDME && s.dma1End && s.dma1IrqEnable then
      intcRaise InterruptSource.DMAC1_XferEnd s1
    else if s.wdtOVF && !s.wdtWTnIT then intcRaise InterruptSource.WDT_ITI s1
    else if s.frtICF && s.frtICIE then intcRaise InterruptSource.FRT_ICI s1
    else if (s.frtOCFA && s.frtOCIAE) || (s.frtOCFB && s.frtOCIBE) then
      intcRaise InterruptSource.FRT_OCI s1
    else if s.frtOVF && s.frtOVIE then intcRaise InterruptSource.FRT_OVI s1
    else s1

/-- The first eligible source of the walk after NMI and IRL, in the
fixed order divide-overflow > DMA0 > DMA1 > watchdog > (bus-error and
serial: never eligible) > FRT capture > FRT compare > FRT overflow. -/
def firstEligibleRest (s : IntcState) : Option InterruptSource :=
  if s.divuOVF && s.divuOVFIE then some InterruptSource.DIVU_OVFI
  else if s.dmaDME && s.dma0End && s.dma0IrqEnable then some InterruptSource.DMAC0_XferEnd
  else if s.dmaDME && s.dma1End && s.dma1IrqEnable then some InterruptSource.DMAC1_XferEnd
  else if s.wdtOVF && !s.wdtWTnIT then some InterruptSource.WDT_ITI
  else if s.frtICF && s.frtICIE then some InterruptSource.FRT_ICI
  else if (s.frtOCFA && s.frtOCIAE) || (s.frtOCFB && s.frtOCIBE) then
    some InterruptSource.FRT_OCI
  else if s.frtOVF && s.frtOVIE then some InterruptSource.FRT_OVI
  else none

/-- Written from the claim's words, for comparison with the source
behavior: the walk raises the first eligible source (in the order NMI >
IRL > divide-overflow > DMA0 > DMA1 > watchdog > bus-error > serial >
FRT) into the pending slot and returns, a source being eligible when
its enable bit is set and its trigger condition asserted. -/
def claimFirstEligible (s : IntcState) : Option InterruptSource :=
  if s.nmi then some InterruptSource.NMI
  else if 0 < s.levels InterruptSource.IRL then some InterruptSource.IRL
  else firstEligibleRest s

/-- Written from the claim's words: the resulting pending `{level,
source}` slot after `RecalcInterrupts` as the claim describes it. -/
def claimRecalcPending (s : IntcState) : Nat × InterruptSource :=
  match claimFirstEligible s with
  | some src => (s.levels src, src)
  | Option.none => (0, InterruptSource.none)

/-- A state with the external IRL eligible at level 2 and the divider
overflow interrupt eligible at level 9: the first eligible source in
the claim's walk order is IRL, but the source code's walk falls through
after raising IRL and the higher-level divider overflow wins. -/
def cexIntc : IntcState where
  nmi := false
  divuOVF := true
  divuOVFIE := true
  dmaDME := false
  dma0End := false
  dma0IrqEnable := false
  dma1End := false
  dma1IrqEnable := false
  wdtOVF := false
  wdtWTnIT := false
  frtICF := false
  frtICIE := false
  frtOCFA := false
  frtOCIAE := false
  frtOCFB := false
  frtOCIBE := false
  frtOVF := false
  frtOVIE := false
  levels := fun src =>
    match src with
    | InterruptSource.IRL => 2
    | InterruptSource.DIVU_OVFI => 9
    | _ => 0
  pendingLevel := 0
  pendingSource := InterruptSource.none
  intrPending := false
  delaySlot := false
  srILevel := 0

theorem c5_first_eligible_counterexample :
    (recalcInterrupts cexIntc).pendingSource = InterruptSource.DIVU_OVFI ∧
    (recalcInterrupts cexIntc).pendingLevel = 9 ∧
    claimRecalcPending cexIntc = (2, InterruptSource.IRL) ∧
    ((recalcInterrupts cexIntc).pendingLevel, (recalcInterrupts cexIntc).pendingSource) ≠
      claimRecalcPending cexIntc := by
  refine ⟨rfl, rfl, rfl, ?_⟩
  decide

lemma recalcInterrupts_eq_match (s : IntcState) (hnmi : s.nmi = false) :
    recalcInterrupts s =
      (match firstEligibleRest s with
        | some src =>
          intcRaise src
            (if 0 < s.levels InterruptSource.IRL then intcRaise InterruptSource.IRL (intcReset s)
             else intcReset s)
        | Option.none =>
          if 0 < s.levels InterruptSource.IRL then intcRaise InterruptSource.IRL (intcReset s)
          else intcReset s) := by
  simp only [recalcInterrupts, firstEligibleRest, hnmi]
  rw [if_neg (by simp)]
  split_ifs <;> rfl

/-- C5 (amended): `RecalcInterrupts` first resets the pending interrupt
to none and clears the flag, then walks the sources in the fixed
tie-break order; NMI, when set, is raised and the walk returns; when
the external IRL is not eligible, the first eligible source of the rest
of the walk is raised into the pending slot and the walk returns; when
IRL is eligible it is raised but the walk continues, and the first
eligible later source is also raised, replacing IRL in the pending slot
exactly when its level is strictly higher (on a tie or lower level IRL
keeps the slot and the pending level is the maximum of the two). -/
theorem c5_recalc_interrupts_walk (s : IntcState) :
    (s.nmi = true →
      recalcInterrupts s = intcRaise InterruptSource.NMI (intcReset s)) ∧
    (s.nmi = false → s.levels InterruptSource.IRL = 0 →
      recalcInterrupts s =
        (match firstEligibleRest s with
          | some src => intcRaise src (intcReset s)
          | Option.none => intcReset s)) ∧
    (s.nmi = false → 0 < s.levels InterruptSource.IRL →
      recalcInterrupts s =
        (match firstEligibleRest s with
          | some src => intcRaise src (intcRaise InterruptSource.IRL (intcReset s))
          | Option.none => intcRaise InterruptSource.IRL (intcReset s)) ∧
      (∀ src, firstEligibleRest s = some src →
        ((recalcInterrupts s).pendingSource =
          if s.levels src ≤ s.levels InterruptSource.IRL then InterruptSource.IRL else src) ∧
        (recalcInterrupts s).pendingLevel =
          max (s.levels InterruptSource.IRL) (s.levels src))) := by
  refine ⟨?_, ?_, ?_⟩
  · intro hnmi
    simp only [recalcInterrupts, hnmi]
    rfl
  · intro hnmi hirl
    have hif : (if 0 < s.levels InterruptSource.IRL then
        intcRaise InterruptSource.IRL (intcReset s) else intcReset s) = intcReset s :=
      if_neg (by omega)
    simp only [recalcInterrupts_eq_match s hnmi, hif]
  · intro hnmi hirl
    have hif : (if 0 < s.levels InterruptSource.IRL then
        intcRaise InterruptSource.IRL (intcReset s) else intcReset s) =
        intcRaise InterruptSource.IRL (intcReset s) :=
      if_pos hirl
    constructor
    · simp only [recalcInterrupts_eq_match s hnmi, hif]
    · intro src hsrc
      have hre : recalcInterrupts s =
          intcRaise src (intcRaise InterruptSource.IRL (intcReset s)) := by
        simp only [recalcInterrupts_eq_match s hnmi, hif, hsrc]
      have hirlraise : intcRaise InterruptSource.IRL (intcReset s) =
          { intcReset s with
            pendingLevel := s.levels InterruptSource.IRL
            pendingSource := InterruptSource.IRL
            intrPending := (!s.delaySlot) &&
              decide (s.srILevel < s.levels InterruptSource.IRL) } := by
        simp only [intcRaise, intcReset]
        rw [if_pos (by simpa using hirl)]
      rw [hre, hirlraise]
      simp only [intcRaise]
      by_cases hcmp : s.levels src ≤ s.levels InterruptSource.IRL
      · rw [if_neg (by simp only [intcReset]; omega)]
        constructor
        · rw [if_pos hcmp]
        · simp only [intcReset]
          omega
      · rw [if_pos (by simp only [intcReset]; omega)]
        constructor
        · rw [if_neg hcmp]
        · simp only [intcReset]
          omega

theorem c5_recalc_interrupts_walk_witness :
    (cexIntc.nmi = false ∧ 0 < cexIntc.levels InterruptSource.IRL ∧
      firstEligibleRest cexIntc = some InterruptSource.DIVU_OVFI) ∧
    ((recalcInterrupts cexIntc).pendingSource =
      if cexIntc.levels InterruptSource.DIVU_OVFI ≤ cexIntc.levels InterruptSource.IRL then
        InterruptSource.IRL
      else InterruptSource.DIVU_OVFI) :=
  ⟨⟨by decide, by decide, by decide⟩,
    ((((c5_recalc_interrupts_walk cexIntc).2.2 (by decide) (by decide)).2
      InterruptSource.DIVU_OVFI (by decide)).1)⟩

/-!
Helper facts about the block builder and the lookup structure, shared by
the burst/step parity development.
-/

lemma buildCachedBlockLoop_headers (peek : Nat → Nat) (decode : Bool → Nat → OpcodeType)
    (startPage : Nat) :
    ∀ fuel block buildPC busAddr dds,
      (buildCachedBlockLoop peek decode startPage fuel block buildPC busAddr dds).startPC =
          block.startPC ∧
        (buildCachedBlockLoop peek decode startPage fuel block buildPC busAddr
          dds).startDelaySlot = block.startDelaySlot ∧
        (buildCachedBlockLoop peek decode startPage fuel block buildPC busAddr
          dds).startBusPage = block.startBusPage ∧
        (buildCachedBlockLoop peek decode startPage fuel block buildPC busAddr
          dds).busPageGeneration = block.busPageGeneration ∧
        (buildCachedBlockLoop peek decode startPage fuel block buildPC busAddr
          dds).lookupOffsetNext = block.lookupOffsetNext := by
  intro fuel
  induction fuel with
  | zero => intro block buildPC busAddr dds; exact ⟨rfl, rfl, rfl, rfl, rfl⟩
  | succ f ih =>
    intro block buildPC busAddr dds
    simp only [buildCachedBlockLoop]
    split_ifs
    · exact ⟨rfl, rfl, rfl, rfl, rfl⟩
    · exact ⟨rfl, rfl, rfl, rfl, rfl⟩
    · exact ih _ _ _ _

lemma buildCachedBlockLoop_count_ge (peek : Nat → Nat) (decode : Bool → Nat → OpcodeType)
    (startPage : Nat) :
    ∀ fuel block buildPC busAddr dds, 0 < fuel →
      block.instructionCount + 1 ≤
        (buildCachedBlockLoop peek decode startPage fuel block buildPC busAddr
          dds).instructionCount := by
  intro fuel
  induction fuel with
  | zero => intro _ _ _ _ hf; omega
  | succ f ih =>
    intro block buildPC busAddr dds _
    simp only [buildCachedBlockLoop]
    split_ifs
    · exact le_refl _
    · exact le_refl _
    · rcases Nat.eq_zero_or_pos f with hf0 | hf0
      · subst hf0
        simp only [buildCachedBlockLoop]
        exact le_refl _
      · refine le_trans ?_ (ih _ _ _ _ hf0)
        simp

lemma buildCachedBlockLoop_dds_single (peek : Nat → Nat) (decode : Bool → Nat → OpcodeType)
    (startPage : Nat) (fuel : Nat) (block : CachedBlock) (buildPC busAddr : Nat)
    (hf : 0 < fuel) :
    (buildCachedBlockLoop peek decode startPage fuel block buildPC busAddr
      true).instructionCount = block.instructionCount + 1 := by
  rcases fuel with _ | f
  · omega
  · simp [buildCachedBlockLoop]

lemma buildCachedBlockLoop_mem (peek : Nat → Nat) (decode : Bool → Nat → OpcodeType)
    (startPage : Nat) (memAccess : Nat → Bool)
    (hpeek : ∀ a, memAccess (peek a) = false) :
    ∀ fuel block buildPC busAddr dds,
      (∀ i, i < block.instructionCount → memAccess (block.instructions i) = false) →
      ∀ i, i < (buildCachedBlockLoop peek decode startPage fuel block buildPC busAddr
          dds).instructionCount →
        memAccess ((buildCachedBlockLoop peek decode startPage fuel block buildPC busAddr
          dds).instructions i) = false := by
  intro fuel
  induction fuel with
  | zero => intro block _ _ _ h i hi; exact h i hi
  | succ f ih =>
    intro block buildPC busAddr dds h
    simp only [buildCachedBlockLoop]
    have hnew : ∀ i, i < block.instructionCount + 1 →
        memAccess (Function.update block.instructions block.instructionCount
          (peek buildPC) i) = false := by
      intro i hi
      rcases Nat.lt_or_ge i block.instructionCount with hik | hik
      · rw [Function.update_noteq (by omega)]
        exact h i hik
      · have : i = block.instructionCount := by omega
        subst this
        rw [Function.update_same]
        exact hpeek _
    split_ifs
    · exact hnew
    · exact hnew
    · exact ih _ _ _ _ hnew

lemma buildCachedBlockLoop_nonbarrier (peek : Nat → Nat) (decode : Bool → Nat → OpcodeType)
    (startPage : Nat) :
    ∀ fuel block buildPC busAddr dds,
      (∀ i, i < block.instructionCount →
        isCachedBlockBarrier (block.decodedOpcodes i) = false) →
      ∀ i, i + 1 < (buildCachedBlockLoop peek decode startPage fuel block buildPC busAddr
          dds).instructionCount →
        isCachedBlockBarrier ((buildCachedBlockLoop peek decode startPage fuel block buildPC
          busAddr dds).decodedOpcodes i) = false := by
  intro fuel
  induction fuel with
  | zero =>
    intro block _ _ _ h i hi
    simp only [buildCachedBlockLoop] at hi
    exact h i (by omega)
  | succ f ih =>
    intro block buildPC busAddr dds h
    simp only [buildCachedBlockLoop]
    have hold : ∀ i, i + 1 < block.instructionCount + 1 →
        isCachedBlockBarrier (Function.update block.decodedOpcodes block.instructionCount
          (decode dds (peek buildPC)) i) = false := by
      intro i hi
      rw [Function.update_noteq (by omega)]
      exact h i (by omega)
    split_ifs with h1 h2
    · exact hold
    · exact hold
    · have hbar : isCachedBlockBarrier (decode dds (peek buildPC)) = false := by
        rcases hb : isCachedBlockBarrier (decode dds (peek buildPC)) with _ | _
        · rfl
        · exact absurd (by simp [hb]) h1
      have hall : ∀ i, i < block.instructionCount + 1 →
          isCachedBlockBarrier (Function.update block.decodedOpcodes block.instructionCount
            (decode dds (peek buildPC)) i) = false := by
        intro i hi
        rcases Nat.lt_or_ge i block.instructionCount with hik | hik
        · rw [Function.update_noteq (by omega)]
          exact h i hik
        · have : i = block.instructionCount := by omega
          subst this
          rw [Function.update_same]
          exact hbar
      exact ih _ _ _ _ hall

/-- The block-safety facts of any block produced by the builder: at
least one instruction, all instruction slots taken from `peek`, no
barrier before the final slot, delay-slot entries single-op, header
fields set from the arguments and the chain link preserved. -/
lemma buildCachedBlock_facts (peek : Nat → Nat) (decode : Bool → Nat → OpcodeType)
    (generations : Nat → Nat) (block : CachedBlock) (pc : Nat) (ds : Bool)
    (memAccess : Nat → Bool) (hpeek : ∀ a, memAccess (peek a) = false) :
    1 ≤ (buildCachedBlock peek decode generations block pc ds).instructionCount ∧
    (∀ i, i < (buildCachedBlock peek decode generations block pc ds).instructionCount →
      memAccess ((buildCachedBlock peek decode generations block pc ds).instructions i) =
        false) ∧
    (∀ i, i + 1 < (buildCachedBlock peek decode generations block pc ds).instructionCount →
      isCachedBlockBarrier
        ((buildCachedBlock peek decode generations block pc ds).decodedOpcodes i) = false) ∧
    (ds = true → (buildCachedBlock peek decode generations block pc ds).instructionCount = 1) ∧
    (buildCachedBlock peek decode generations block pc ds).startPC = pc ∧
    (buildCachedBlock peek decode generations block pc ds).startDelaySlot = ds ∧
    (buildCachedBlock peek decode generations block pc ds).startBusPage =
      (pc &&& kCachedBlockAddressMask) >>> kCachedBlockPageBits ∧
    (buildCachedBlock peek decode generations block pc ds).busPageGeneration =
      generations ((pc &&& kCachedBlockAddressMask) >>> kCachedBlockPageBits) ∧
    (buildCachedBlock peek decode generations block pc ds).lookupOffsetNext =
      block.lookupOffsetNext := by
  simp only [buildCachedBlock]
  obtain ⟨g1, g2, g3, g4, g5⟩ := buildCachedBlockLoop_headers peek decode
    ((pc &&& kCachedBlockAddressMask) &&& kCachedBlockPageMask) kCachedBlockMaxInstructions
    { block with
      startPC := pc
      startDelaySlot := ds
      startBusPage := (pc &&& kCachedBlockAddressMask) >>> kCachedBlockPageBits
      busPageGeneration := generations ((pc &&& kCachedBlockAddressMask) >>> kCachedBlockPageBits)
      instructionCount := 0 } pc (pc &&& kCachedBlockAddressMask) ds
  refine ⟨?_, ?_, ?_, ?_, g1, g2, g3, g4, g5⟩
  · have := buildCachedBlockLoop_count_ge peek decode
      ((pc &&& kCachedBlockAddressMask) &&& kCachedBlockPageMask) kCachedBlockMaxInstructions
      { block with
        startPC := pc
        startDelaySlot := ds
        startBusPage := (pc &&& kCachedBlockAddressMask) >>> kCachedBlockPageBits
        busPageGeneration :=
          generations ((pc &&& kCachedBlockAddressMask) >>> kCachedBlockPageBits)
        instructionCount := 0 } pc (pc &&& kCachedBlockAddressMask) ds
      (by norm_num [kCachedBlockMaxInstructions])
    simpa using this
  · exact buildCachedBlockLoop_mem peek decode _ memAccess hpeek kCachedBlockMaxInstructions _
      pc _ ds (by intro i hi; simp at hi)
  · exact buildCachedBlockLoop_nonbarrier peek decode _ kCachedBlockMaxInstructions _ pc _ ds
      (by intro i hi; simp at hi)
  · intro hds
    subst hds
    have := buildCachedBlockLoop_dds_single peek decode
      ((pc &&& kCachedBlockAddressMask) &&& kCachedBlockPageMask) kCachedBlockMaxInstructions
      { block with
        startPC := pc
        startDelaySlot := true
        startBusPage := (pc &&& kCachedBlockAddressMask) >>> kCachedBlockPageBits
        busPageGeneration :=
          generations ((pc &&& kCachedBlockAddressMask) >>> kCachedBlockPageBits)
        instructionCount := 0 } pc (pc &&& kCachedBlockAddressMask)
      (by norm_num [kCachedBlockMaxInstructions])
    simpa using this

lemma getD_append_lt (l : List CachedBlock) (b : CachedBlock) (i : Nat) (h : i < l.length) :
    (l ++ [b]).getD i {} = l.getD i {} := by
  simp [List.getD_eq_getElem?_getD, List.getElem?_append, h]

lemma getD_append_last (l : List CachedBlock) (b : CachedBlock) :
    (l ++ [b]).getD l.length {} = b := by
  simp [List.getD_eq_getElem?_getD]

lemma createCachedBlock_chainInv (s : BlockCacheState) (lbIdx offset page pc : Nat)
    (ds : Bool)
    (hinv : chainInv s)
    (hhead : (s.lookupBuckets lbIdx).offsetHeads offset < (s.blocks.length : Int)) :
    chainInv (createCachedBlock s lbIdx offset page pc ds).2 := by
  simp only [createCachedBlock]
  constructor
  · intro i hi
    simp only [List.length_append, List.length_singleton] at hi
    rcases Nat.lt_or_ge i s.blocks.length with hik | hik
    · rw [getD_append_lt _ _ _ hik]
      exact hinv.1 i hik
    · have hieq : i = s.blocks.length := by omega
      subst hieq
      rw [getD_append_last]
      exact hhead
  · intro bk hbk o
    simp only [List.length_append, List.length_singleton]
    rcases Classical.em ((s.bucketHeads bk).toNat = lbIdx) with heq | hne
    · rw [heq, Function.update_same]
      show Function.update (s.lookupBuckets lbIdx).offsetHeads offset
          (Int.ofNat s.blocks.length) o < ((s.blocks.length + 1 : Nat) : Int)
      rcases Classical.em (o = offset) with ho | ho
      · subst ho
        rw [Function.update_same]
        have : Int.ofNat s.blocks.length = (s.blocks.length : Int) := rfl
        omega
      · rw [Function.update_noteq ho]
        have h2 := hinv.2 bk hbk o
        rw [heq] at h2
        omega
    · rw [Function.update_noteq hne]
      have := hinv.2 bk hbk o
      omega

lemma allocateCachedBlockLookupBucket_frame (s : BlockCacheState) :
    (allocateCachedBlockLookupBucket s).2.blocks = s.blocks ∧
    (allocateCachedBlockLookupBucket s).2.bucketHeads = s.bucketHeads ∧
    (allocateCachedBlockLookupBucket s).2.lookupBuckets = s.lookupBuckets ∧
    (allocateCachedBlockLookupBucket s).2.cursor = s.cursor ∧
    (allocateCachedBlockLookupBucket s).2.pageGenerations = s.pageGenerations ∧
    (allocateCachedBlockLookupBucket s).2.allocOracle = s.allocOracle := by
  simp only [allocateCachedBlockLookupBucket]
  rcases s.freeList with _ | ⟨i, rest⟩
  · split_ifs <;> exact ⟨rfl, rfl, rfl, rfl, rfl, rfl⟩
  · exact ⟨rfl, rfl, rfl, rfl, rfl, rfl⟩

lemma chainInv_of_eq (s t : BlockCacheState) (hb : t.blocks = s.blocks)
    (hh : t.bucketHeads = s.bucketHeads) (hlb : t.lookupBuckets = s.lookupBuckets)
    (hinv : chainInv s) : chainInv t := by
  constructor
  · rw [hb]
    exact hinv.1
  · intro bk hbk o
    rw [hh] at hbk
    rw [hb, hh, hlb]
    exact hinv.2 bk hbk o

/-- `FindOrCreateCachedBlock` preserves chain wellformedness, in both the
success and the fail-soft outcome. -/
lemma findOrCreateCachedBlock_chainInv (s : BlockCacheState) (pc : Nat) (ds : Bool)
    (hinv : chainInv s) :
    chainInv (findOrCreateCachedBlock s pc ds).2 := by
  simp only [findOrCreateCachedBlock]
  split_ifs with hhead
  · rcases hfind : findChain s.blocks pc ds (s.blocks.length + 1)
        ((s.lookupBuckets (s.bucketHeads (getCachedBlockBucket pc ds)).toNat).offsetHeads
          (getCachedBlockOffset pc)) with _ | fidx
    · exact createCachedBlock_chainInv _ _ _ _ _ _ hinv
        (hinv.2 (getCachedBlockBucket pc ds) hhead (getCachedBlockOffset pc))
    · exact hinv
  · rcases halloc : allocateCachedBlockLookupBucket s with ⟨r, s1⟩
    obtain ⟨f1, f2, f3, f4, f5, f6⟩ := allocateCachedBlockLookupBucket_frame s
    rw [halloc] at f1 f2 f3 f4 f5 f6
    rcases r with _ | newIdx
    · exact chainInv_of_eq s s1 f1 f2 f3 hinv
    · refine createCachedBlock_chainInv _ _ _ _ _ _ ⟨?_, ?_⟩ ?_
      · show ∀ i, i < s1.blocks.length → (s1.blocks.getD i {}).lookupOffsetNext < (i : Int)
        rw [f1]
        exact hinv.1
      · show ∀ bk, 0 ≤ Function.update s1.bucketHeads (getCachedBlockBucket pc ds)
            (Int.ofNat newIdx) bk →
          ∀ o, ((Function.update s1.lookupBuckets newIdx ⟨fun _ => -1⟩)
            (Function.update s1.bucketHeads (getCachedBlockBucket pc ds)
              (Int.ofNat newIdx) bk).toNat).offsetHeads o < (s1.blocks.length : Int)
        rw [f1, f2, f3]
        intro bk hbk o
        rcases Classical.em (bk = getCachedBlockBucket pc ds) with hbkeq | hbkne
        · subst hbkeq
          rw [Function.update_same]
          rw [show (Int.ofNat newIdx).toNat = newIdx from rfl, Function.update_same]
          show (-1 : Int) < (s.blocks.length : Int)
          omega
        · rw [Function.update_noteq hbkne] at hbk ⊢
          rcases Classical.em ((s.bucketHeads bk).toNat = newIdx) with hidx | hidx
          · rw [hidx, Function.update_same]
            show (-1 : Int) < (s.blocks.length : Int)
            omega
          · rw [Function.update_noteq hidx]
            exact hinv.2 bk hbk o
      · show ((Function.update s1.lookupBuckets newIdx ⟨fun _ => -1⟩)
            newIdx).offsetHeads (getCachedBlockOffset pc) < (s1.blocks.length : Int)
        rw [Function.update_same]
        show (-1 : Int) < (s1.blocks.length : Int)
        omega

/-- Every block of the cache after `FindOrCreateCachedBlock` is either an
existing block or the freshly created empty one. -/
lemma findOrCreateCachedBlock_blocks_sub (s : BlockCacheState) (pc : Nat) (ds : Bool) :
    ∀ b ∈ (findOrCreateCachedBlock s pc ds).2.blocks,
      b ∈ s.blocks ∨ b.instructionCount = 0 := by
  simp only [findOrCreateCachedBlock]
  split_ifs with hhead
  · rcases hfind : findChain s.blocks pc ds (s.blocks.length + 1)
        ((s.lookupBuckets (s.bucketHeads (getCachedBlockBucket pc ds)).toNat).offsetHeads
          (getCachedBlockOffset pc)) with _ | fidx
    · intro b hb
      simp only [createCachedBlock, List.mem_append, List.mem_singleton] at hb
      rcases hb with hb | hb
      · exact Or.inl hb
      · exact Or.inr (by rw [hb])
    · intro b hb
      exact Or.inl hb
  · rcases halloc : allocateCachedBlockLookupBucket s with ⟨r, s1⟩
    obtain ⟨f1, _, _, _, _, _⟩ := allocateCachedBlockLookupBucket_frame s
    rw [halloc] at f1
    rcases r with _ | newIdx
    · intro b hb
      refine Or.inl ?_
      rw [← f1]
      exact hb
    · intro b hb
      simp only [createCachedBlock, List.mem_append, List.mem_singleton] at hb
      rcases hb with hb | hb
      · refine Or.inl ?_
        rw [← f1]
        exact hb
      · exact Or.inr (by rw [hb])

/-- `FindOrCreateCachedBlock` never touches the cursor, the page
generations, or the allocation oracle. -/
lemma findOrCreateCachedBlock_frame (s : BlockCacheState) (pc : Nat) (ds : Bool) :
    (findOrCreateCachedBlock s pc ds).2.cursor = s.cursor ∧
    (findOrCreateCachedBlock s pc ds).2.pageGenerations = s.pageGenerations ∧
    (findOrCreateCachedBlock s pc ds).2.allocOracle = s.allocOracle := by
  simp only [findOrCreateCachedBlock]
  split_ifs with hhead
  · rcases hfind : findChain s.blocks pc ds (s.blocks.length + 1)
        ((s.lookupBuckets (s.bucketHeads (getCachedBlockBucket pc ds)).toNat).offsetHeads
          (getCachedBlockOffset pc)) with _ | fidx
    · exact ⟨rfl, rfl, rfl⟩
    · exact ⟨rfl, rfl, rfl⟩
  · rcases halloc : allocateCachedBlockLookupBucket s with ⟨r, s1⟩
    obtain ⟨_, _, _, f4, f5, f6⟩ := allocateCachedBlockLookupBucket_frame s
    rw [halloc] at f4 f5 f6
    rcases r with _ | newIdx
    · exact ⟨f4, f5, f6⟩
    · exact ⟨f4, f5, f6⟩

lemma emptyCache_chainInv : chainInv emptyCache := by
  constructor
  · intro i hi
    simp [emptyCache] at hi
  · intro bk hbk
    exact absurd hbk (by simp [emptyCache])

theorem c8_delay_slot_lookup_key_separation_witness :
    chainInv emptyCache ∧ (0 : Nat) ≠ 1 :=
  ⟨emptyCache_chainInv,
    (c8_delay_slot_lookup_key_separation emptyCache 0x1000 false 0 1
      (findOrCreateCachedBlock emptyCache 0x1000 false).2
      (findOrCreateCachedBlock (findOrCreateCachedBlock emptyCache 0x1000 false).2 0x1000
        true).2
      emptyCache_chainInv (Prod.ext rfl rfl) (Prod.ext rfl rfl)).2.2.2.2.2⟩

/-- C3: for every `(startPC, startDelaySlot)`, `BuildCachedBlock` yields
a block of at least one and at most `kCachedBlockMaxInstructions`
instructions, decoded sequentially from `startPC`; no stop condition
(barrier opcode from the closed explicit set, page crossing, delay-slot
entry) holds strictly inside the block; the block ends at the cap or
right after the first stop condition; a delay-slot entry yields exactly
one instruction; and every instruction of the block lies in the block's
start page, so no cached block spans a page boundary or continues past a
barrier opcode. -/
theorem c3_build_cached_block_stops_exactly (peek : Nat → Nat)
    (decode : Bool → Nat → OpcodeType) (generations : Nat → Nat) (block0 : CachedBlock)
    (startPC : Nat) (startDelaySlot : Bool) (hpc : startPC < 2 ^ 32) :
    (1 ≤ (buildCachedBlock peek decode generations block0 startPC startDelaySlot).instructionCount ∧
      (buildCachedBlock peek decode generations block0 startPC
        startDelaySlot).instructionCount ≤ kCachedBlockMaxInstructions) ∧
    (startDelaySlot = true →
      (buildCachedBlock peek decode generations block0 startPC
        startDelaySlot).instructionCount = 1) ∧
    (∀ i, i < (buildCachedBlock peek decode generations block0 startPC
        startDelaySlot).instructionCount →
      (buildCachedBlock peek decode generations block0 startPC startDelaySlot).instructions i =
        cbInstrAt peek startPC i ∧
      (buildCachedBlock peek decode generations block0 startPC startDelaySlot).decodedOpcodes i =
        cbOpAt peek decode startPC startDelaySlot i) ∧
    (∀ i, i + 1 < (buildCachedBlock peek decode generations block0 startPC
        startDelaySlot).instructionCount →
      ¬cbStopAfter peek decode startPC startDelaySlot i) ∧
    ((buildCachedBlock peek decode generations block0 startPC
        startDelaySlot).instructionCount = kCachedBlockMaxInstructions ∨
      cbStopAfter peek decode startPC startDelaySlot
        ((buildCachedBlock peek decode generations block0 startPC
          startDelaySlot).instructionCount - 1)) ∧
    (∀ i, i < (buildCachedBlock peek decode generations block0 startPC
        startDelaySlot).instructionCount →
      cbAddrAt startPC i &&& kCachedBlockPageMask =
        (startPC &&& kCachedBlockAddressMask) &&& kCachedBlockPageMask) := by
  have hwrap : buildCachedBlock peek decode generations block0 startPC startDelaySlot =
      cbLoopAt peek decode startPC startDelaySlot kCachedBlockMaxInstructions 0
        { block0 with
          startPC := startPC
          startDelaySlot := startDelaySlot
          startBusPage := (startPC &&& kCachedBlockAddressMask) >>> kCachedBlockPageBits
          busPageGeneration :=
            generations ((startPC &&& kCachedBlockAddressMask) >>> kCachedBlockPageBits)
          instructionCount := 0 } := by
    simp only [buildCachedBlock, cbLoopAt, cbAddrAt_zero, cbDelayFlag, if_pos]
    rw [mul_zero, add_zero, show u32 startPC = startPC from Nat.mod_eq_of_lt hpc]
  obtain ⟨hbounds, hmin, hstop, hentries, _, _⟩ :=
    buildCachedBlockLoop_spec peek decode startPC startDelaySlot kCachedBlockMaxInstructions 0
      { block0 with
        startPC := startPC
        startDelaySlot := startDelaySlot
        startBusPage := (startPC &&& kCachedBlockAddressMask) >>> kCachedBlockPageBits
        busPageGeneration :=
          generations ((startPC &&& kCachedBlockAddressMask) >>> kCachedBlockPageBits)
        instructionCount := 0 } rfl (by omega) (by norm_num [kCachedBlockMaxInstructions])
  rw [hwrap]
  refine ⟨⟨hbounds.1, hbounds.2⟩, ?_, fun i hi => hentries i (by omega) hi,
    fun i hi => hmin i (by omega) hi, hstop, ?_⟩
  · intro hsds
    by_contra hne
    have h2 : 2 ≤ (cbLoopAt peek decode startPC startDelaySlot kCachedBlockMaxInstructions 0
        { block0 with
          startPC := startPC
          startDelaySlot := startDelaySlot
          startBusPage := (startPC &&& kCachedBlockAddressMask) >>> kCachedBlockPageBits
          busPageGeneration :=
            generations ((startPC &&& kCachedBlockAddressMask) >>> kCachedBlockPageBits)
          instructionCount := 0 }).instructionCount := by omega
    exact hmin 0 (by omega) (by omega) (Or.inl ⟨rfl, hsds⟩)
  · intro i hi
    induction i with
    | zero => rw [cbAddrAt_zero]
    | succ j ihj =>
      have hnostop := hmin j (by omega) (by omega)
      have hnocross : ¬cbCrossAfter startPC j := fun hc => hnostop (Or.inr (Or.inr hc))
      unfold cbCrossAfter at hnocross
      simpa using hnocross

theorem c3_build_cached_block_stops_exactly_witness :
    (0x1000 < 2 ^ 32) ∧
      (1 ≤ (buildCachedBlock (fun _ => 9) (fun _ _ => OpcodeType.other 0) (fun _ => 0) {}
          0x1000 false).instructionCount ∧
        (buildCachedBlock (fun _ => 9) (fun _ _ => OpcodeType.other 0) (fun _ => 0) {}
          0x1000 false).instructionCount ≤ kCachedBlockMaxInstructions) :=
  ⟨by decide,
    (c3_build_cached_block_stops_exactly (fun _ => 9) (fun _ _ => OpcodeType.other 0)
      (fun _ => 0) {} 0x1000 false (by decide)).1⟩

theorem c2_invalidate_block_cache_range_locality_witness :
    (0x2000 ≤ kCachedBlockAddressMask ∧ 0 < 4) ∧
      (invalidateBlockCacheRange sampleCache 0x2000 4).blocks = sampleCache.blocks :=
  ⟨⟨by decide, by decide⟩,
    ((c2_invalidate_block_cache_range_locality sampleCache 0x2000 4 (by decide) (by decide)
      (by decide) (by decide)).1 (by decide)).2.2.2⟩

/-!
Burst/step parity (C1): `Advance<false, false, true>` over the exact
cycle budget of `n` `Step` calls reaches the same full machine state.
-/

lemma getD_set_self (l : List CachedBlock) (i : Nat) (nb : CachedBlock)
    (h : i < l.length) : (l.set i nb).getD i {} = nb := by
  simp [List.getD_eq_getElem?_getD, List.getElem?_set_self h]

lemma getD_set_ne (l : List CachedBlock) (i j : Nat) (nb : CachedBlock)
    (h : i ≠ j) : (l.set i nb).getD j {} = l.getD j {} := by
  simp [List.getD_eq_getElem?_getD, List.getElem?_set_ne h]

/-- Replacing a block slot in place with an equal chain link preserves the
chain invariant (the staleness rebuild path of `InterpretNext` and
`ExecuteCachedBurstNoSH2Cache`). -/
lemma chainInv_set (s : BlockCacheState) (idx : Nat) (nb : CachedBlock)
    (hinv : chainInv s) (hidx : idx < s.blocks.length)
    (hnext : nb.lookupOffsetNext = (s.blocks.getD idx {}).lookupOffsetNext) :
    chainInv { s with blocks := s.blocks.set idx nb } := by
  constructor
  · intro i hi
    rw [List.length_set] at hi
    rcases Classical.em (idx = i) with rfl | hne
    · rw [getD_set_self _ _ _ hidx, hnext]
      exact hinv.1 idx hi
    · rw [getD_set_ne _ _ _ _ hne]
      exact hinv.1 i hi
  · intro bk hbk o
    simp only [List.length_set]
    exact hinv.2 bk hbk o

/-- With an always-succeeding chunk allocator, `FindOrCreateCachedBlock`
always yields a block index. -/
lemma findOrCreateCachedBlock_some (s : BlockCacheState) (pc : Nat) (ds : Bool)
    (halloc : ∀ k, s.allocOracle k = true) :
    ∃ idx s2, findOrCreateCachedBlock s pc ds = (some idx, s2) := by
  simp only [findOrCreateCachedBlock]
  split_ifs with hhead
  · rcases hfind : findChain s.blocks pc ds (s.blocks.length + 1)
        ((s.lookupBuckets (s.bucketHeads (getCachedBlockBucket pc ds)).toNat).offsetHeads
          (getCachedBlockOffset pc)) with _ | fidx
    · exact ⟨s.blocks.length, _, rfl⟩
    · exact ⟨fidx, s, rfl⟩
  · rcases halloc2 : allocateCachedBlockLookupBucket s with ⟨r, s1⟩
    rcases r with _ | newIdx
    · exfalso
      simp only [allocateCachedBlockLookupBucket] at halloc2
      rcases hf : s.freeList with _ | ⟨fi, rest⟩ <;> rw [hf] at halloc2
      · split_ifs at halloc2 with h1 h2
        · simp at halloc2
        · exact h2 (halloc s.allocCount)
        · simp at halloc2
      · simp at halloc2
    · exact ⟨_, _, rfl⟩

/-- Safety of one cached block for the parity argument: no instruction is
flagged as touching memory, no barrier opcode before the final slot, and
multi-instruction blocks never start in a delay slot. -/
def blockSafe (memAccess : Nat → Bool) (b : CachedBlock) : Prop :=
  (∀ i, i < b.instructionCount → memAccess (b.instructions i) = false) ∧
  (∀ i, i + 1 < b.instructionCount → isCachedBlockBarrier (b.decodedOpcodes i) = false) ∧
  (2 ≤ b.instructionCount → b.startDelaySlot = false)

/-- Machine wellformedness threaded through the parity proof: wellformed
lookup chains, every cached block safe, a valid cursor in range whose
delay-slot expectation is false except at a block entry, and an
always-succeeding chunk allocator. -/
def burstSafe {δ : Type} (env : Sh2Env δ) (s : Sh2 δ) : Prop :=
  chainInv s.cache ∧
  (∀ b ∈ s.cache.blocks, blockSafe env.memAccess b) ∧
  (s.cache.cursor.valid = true →
    s.cache.cursor.blockIndex < s.cache.blocks.length ∧
    (s.cache.cursor.instructionIndex ≠ 0 →
      s.cache.cursor.expectedDelaySlot = false)) ∧
  (∀ k, s.cache.allocOracle k = true)

/-- The environment facts C1 quantifies over: the decode table flags no
fetched instruction as touching memory, opcode handlers cost at least one
cycle, and a non-barrier opcode outside a delay slot falls through to
`PC += 2` with the delay slot still clear (`AdvancePC<false>`). -/
def envSafe {δ : Type} (env : Sh2Env δ) : Prop :=
  (∀ a, env.memAccess (env.peek16 a) = false) ∧
  (∀ o i c, 1 ≤ (env.dispatch o i c).2) ∧
  (∀ o i c, c.delaySlot = false → isCachedBlockBarrier o = false →
    (env.dispatch o i c).1.pc = u32 (c.pc + 2) ∧
      (env.dispatch o i c).1.delaySlot = false)

/-- The cursor agrees with the core and its block needs no rebuild: the
state from which the cached fast path executes directly. -/
def inSync {δ : Type} (s : Sh2 δ) : Prop :=
  s.cache.cursor.valid = true ∧
  s.cache.cursor.blockIndex < s.cache.blocks.length ∧
  s.cache.cursor.expectedPC = s.core.pc ∧
  s.cache.cursor.expectedDelaySlot = s.core.delaySlot ∧
  s.cache.cursor.instructionIndex <
    (s.cache.blocks.getD s.cache.cursor.blockIndex {}).instructionCount ∧
  ¬(s.cache.cursor.instructionIndex = 0 ∧
    ((s.cache.blocks.getD s.cache.cursor.blockIndex {}).instructionCount = 0 ∨
      (s.cache.blocks.getD s.cache.cursor.blockIndex {}).startPC ≠ s.core.pc ∨
      (s.cache.blocks.getD s.cache.cursor.blockIndex {}).startDelaySlot ≠
        s.core.delaySlot ∨
      (s.cache.blocks.getD s.cache.cursor.blockIndex {}).busPageGeneration ≠
        s.cache.pageGenerations
          (s.cache.blocks.getD s.cache.cursor.blockIndex {}).startBusPage))

/-- One cached-path instruction execution from an in-sync state: the
common retirement step of `InterpretNext` and the burst loop. -/
def cachedExec {δ : Type} (env : Sh2Env δ) (s : Sh2 δ) : Sh2 δ × Nat :=
  let block := s.cache.blocks.getD s.cache.cursor.blockIndex {}
  let i := s.cache.cursor.instructionIndex
  let instr := block.instructions i
  let opcode := block.decodedOpcodes i
  let cursor4 :=
    if i + 1 < block.instructionCount then
      { s.cache.cursor with
        instructionIndex := i + 1
        expectedPC := u32 (s.core.pc + 2)
        expectedDelaySlot := false }
    else { s.cache.cursor with valid := false }
  let dc := env.dispatch opcode instr s.core
  ({ core := dc.1, cache := { s.cache with cursor := cursor4 } }, dc.2)

/-- The cursor-normalization phase shared by `InterpretNext` and the
burst entry: lookup-or-create on a cursor miss, bounds check, staleness
rebuild.  Returns the normalized state and whether the cached path is
usable (false exactly on the fail-soft lookup miss). -/
def normCache {δ : Type} (env : Sh2Env δ) (s : Sh2 δ) : Sh2 δ × Bool :=
  let currentPC := s.core.pc
  let currentDelaySlot := s.core.delaySlot
  let step1 : CachedBlockCursor × BlockCacheState × Bool :=
    if !s.cache.cursor.valid ∨ s.cache.cursor.expectedPC ≠ currentPC ∨
        s.cache.cursor.expectedDelaySlot ≠ currentDelaySlot then
      match findOrCreateCachedBlock s.cache currentPC currentDelaySlot with
      | (none, cacheA) => ({ s.cache.cursor with valid := false }, cacheA, false)
      | (some bi, cacheA) =>
        ({ blockIndex := bi, instructionIndex := 0, expectedPC := currentPC,
           expectedDelaySlot := currentDelaySlot, valid := true }, cacheA, true)
    else (s.cache.cursor, s.cache, true)
  let cursor1 := step1.1
  let cache1 := step1.2.1
  let step2 : CachedBlockCursor × Bool :=
    if step1.2.2 ∧ cache1.blocks.length ≤ cursor1.blockIndex then
      ({ cursor1 with valid := false }, false)
    else (cursor1, step1.2.2)
  let cursor2 := step2.1
  if step2.2 then
    let block := cache1.blocks.getD cursor2.blockIndex {}
    let needsEntryRebuild := cursor2.instructionIndex = 0 ∧
      (block.instructionCount = 0 ∨ block.startPC ≠ currentPC ∨
        block.startDelaySlot ≠ currentDelaySlot ∨
        block.busPageGeneration ≠ cache1.pageGenerations block.startBusPage)
    let needsRangeRebuild := block.instructionCount ≤ cursor2.instructionIndex
    if needsEntryRebuild ∨ needsRangeRebuild then
      let nb := buildCachedBlock env.peek16 env.decode cache1.pageGenerations block
        currentPC currentDelaySlot
      ({ core := s.core
         cache :=
          { cache1 with
            blocks := cache1.blocks.set cursor2.blockIndex nb
            cursor := { cursor2 with instructionIndex := 0 } } }, true)
    else ({ core := s.core, cache := { cache1 with cursor := cursor2 } }, true)
  else ({ core := s.core, cache := { cache1 with cursor := cursor2 } }, false)

lemma burstSafe_of_cache_eq {δ : Type} (env : Sh2Env δ) (s t : Sh2 δ)
    (h : t.cache = s.cache) (hs : burstSafe env s) : burstSafe env t := by
  unfold burstSafe
  rw [h]
  exact hs

lemma blockSafe_zero (memAccess : Nat → Bool) (b : CachedBlock)
    (h : b.instructionCount = 0) : blockSafe memAccess b :=
  ⟨fun i hi => absurd hi (by omega), fun i hi => absurd hi (by omega),
    fun h2 => absurd (h ▸ h2) (by omega)⟩

lemma blockSafe_build (peek : Nat → Nat) (decode : Bool → Nat → OpcodeType)
    (generations : Nat → Nat) (b : CachedBlock) (pc : Nat) (ds : Bool)
    (memAccess : Nat → Bool) (hpeek : ∀ a, memAccess (peek a) = false) :
    blockSafe memAccess (buildCachedBlock peek decode generations b pc ds) := by
  obtain ⟨f1, f2, f3, f4, f5, f6, f7, f8, f9⟩ :=
    buildCachedBlock_facts peek decode generations b pc ds memAccess hpeek
  refine ⟨f2, f3, ?_⟩
  intro h2
  rcases hds : ds with _ | _
  · rw [hds] at f6
    rw [f6]
  · rw [hds] at f4 h2
    rw [f4 rfl] at h2
    omega

set_option maxHeartbeats 1000000 in
/-- On an in-sync state with no pending interrupt, `InterpretNext` is
exactly the cached retirement step. -/
lemma interpretNext_inSync {δ : Type} (env : Sh2Env δ) (s : Sh2 δ)
    (hsync : inSync s) (hintr : s.core.intrPending = false) :
    interpretNext env s = cachedExec env s := by
  obtain ⟨h1, h2, h3, h4, h5, h6⟩ := hsync
  have hb : (s.cache.blocks.length ≤ s.cache.cursor.blockIndex) = False :=
    eq_false (by omega)
  have hrange : ((s.cache.blocks.getD s.cache.cursor.blockIndex {}).instructionCount ≤
      s.cache.cursor.instructionIndex) = False := eq_false (by omega)
  have hA := eq_false h6
  simp only [interpretNext, cachedExec, hintr, h1, h3, h4, hb, hrange, hA, Bool.not_true,
    Bool.false_eq_true, ne_self_iff_false, false_or, or_false, or_self, and_false, true_and,
    if_neg not_false, if_pos (rfl : (true : Bool) = true), if_pos True.intro]

set_option maxHeartbeats 3200000 in
/-- The cursor-normalization phase: under a safe machine and environment,
with no pending interrupt, the phase always yields a usable cached path
(the allocator succeeds), preserves the core and the safety invariants,
leaves the machine in sync, and both `InterpretNext` and the burst entry
factor through it: `InterpretNext` is the cached retirement step of the
normalized state, and the burst entry is the burst loop started there. -/
lemma normCache_spec {δ : Type} (env : Sh2Env δ) (s : Sh2 δ) (remaining : Nat)
    (henv : envSafe env) (hsafe : burstSafe env s)
    (hintr : s.core.intrPending = false) (hrem : ¬(remaining = 0)) :
    (normCache env s).2 = true ∧
    (normCache env s).1.core = s.core ∧
    inSync (normCache env s).1 ∧
    burstSafe env (normCache env s).1 ∧
    interpretNext env s = cachedExec env (normCache env s).1 ∧
    executeCachedBurstNoSH2Cache env s remaining =
      burstLoop env (kCachedBurstMaxOpsP91 + 1) (normCache env s).1 remaining {} := by
  obtain ⟨hchain, hblocks, hcursor, halloc⟩ := hsafe
  have hrem0 : (remaining = 0) = False := eq_false hrem
  by_cases hmiss : ((!s.cache.cursor.valid) = true ∨ s.cache.cursor.expectedPC ≠ s.core.pc ∨
      s.cache.cursor.expectedDelaySlot ≠ s.core.delaySlot)
  · -- cursor miss: lookup-or-create, always succeeding
    obtain ⟨bi, cacheA, hfc⟩ :=
      findOrCreateCachedBlock_some s.cache s.core.pc s.core.delaySlot halloc
    obtain ⟨hkey1, hkey2, hlenle, hpres, hidxlt⟩ :=
      findOrCreateCachedBlock_key s.cache s.core.pc s.core.delaySlot bi cacheA hfc
    have hbi : bi < cacheA.blocks.length := hidxlt hchain
    have hchainA : chainInv cacheA := by
      have h := findOrCreateCachedBlock_chainInv s.cache s.core.pc s.core.delaySlot hchain
      rw [hfc] at h
      exact h
    have hblocksA : ∀ b ∈ cacheA.blocks, blockSafe env.memAccess b := by
      have hsub := findOrCreateCachedBlock_blocks_sub s.cache s.core.pc s.core.delaySlot
      rw [hfc] at hsub
      intro b hb
      rcases hsub b hb with h | h
      · exact hblocks b h
      · exact blockSafe_zero _ _ h
    have hframe := findOrCreateCachedBlock_frame s.cache s.core.pc s.core.delaySlot
    rw [hfc] at hframe
    have hfro : cacheA.allocOracle = s.cache.allocOracle := hframe.2.2
    have hb0 : (cacheA.blocks.length ≤ bi) = False := eq_false (by omega)
    by_cases hreb : (((cacheA.blocks.getD bi {}).instructionCount = 0 ∨
        (cacheA.blocks.getD bi {}).startPC ≠ s.core.pc ∨
        (cacheA.blocks.getD bi {}).startDelaySlot ≠ s.core.delaySlot ∨
        (cacheA.blocks.getD bi {}).busPageGeneration ≠
          cacheA.pageGenerations (cacheA.blocks.getD bi {}).startBusPage) ∨
      (cacheA.blocks.getD bi {}).instructionCount ≤ 0)
    · -- miss + rebuild
      obtain ⟨f1, f2, f3, f4, f5, f6, f7, f8, f9⟩ :=
        buildCachedBlock_facts env.peek16 env.decode cacheA.pageGenerations
          (cacheA.blocks.getD bi {}) s.core.pc s.core.delaySlot env.memAccess henv.1
      have hz : ((buildCachedBlock env.peek16 env.decode cacheA.pageGenerations
            (cacheA.blocks.getD bi {}) s.core.pc s.core.delaySlot).instructionCount = 0 ∨
          (buildCachedBlock env.peek16 env.decode cacheA.pageGenerations
            (cacheA.blocks.getD bi {}) s.core.pc s.core.delaySlot).instructionCount ≤ 0) =
          False := eq_false (by rintro (h | h) <;> omega)
      have hnorm : normCache env s =
          ({ core := s.core
             cache :=
              { cacheA with
                blocks := cacheA.blocks.set bi (buildCachedBlock env.peek16 env.decode
                  cacheA.pageGenerations (cacheA.blocks.getD bi {}) s.core.pc s.core.delaySlot)
                cursor :=
                  { blockIndex := bi, instructionIndex := 0, expectedPC := s.core.pc,
                    expectedDelaySlot := s.core.delaySlot, valid := true } } }, true) := by
        simp only [normCache, eq_true hmiss, if_pos True.intro, hfc, hb0, and_false,
          if_neg not_false, eq_true hreb, if_pos (rfl : (true : Bool) = true), Bool.not_true,
          Bool.false_eq_true, false_or, true_and, or_false]
      rw [hnorm]
      refine ⟨rfl, rfl, ⟨rfl, ?_, rfl, rfl, ?_, ?_⟩, ⟨?_, ?_, ?_, ?_⟩, ?_, ?_⟩
      · show bi < (cacheA.blocks.set bi _).length
        rw [List.length_set]
        exact hbi
      · show 0 < ((cacheA.blocks.set bi _).getD bi {}).instructionCount
        rw [getD_set_self _ _ _ hbi]
        omega
      · rintro ⟨-, hx⟩
        rw [getD_set_self _ _ _ hbi] at hx
        rcases hx with h | h | h | h
        · omega
        · exact h f5
        · exact h f6
        · rw [f7, f8] at h
          exact h rfl
      · exact chainInv_of_eq _ _ rfl rfl rfl
          (chainInv_set cacheA bi _ hchainA hbi f9)
      · intro b hb
        rcases List.mem_or_eq_of_mem_set hb with h | h
        · exact hblocksA b h
        · rw [h]
          exact blockSafe_build _ _ _ _ _ _ _ henv.1
      · intro _
        refine ⟨?_, fun h0 => absurd rfl h0⟩
        show bi < (cacheA.blocks.set bi _).length
        rw [List.length_set]
        exact hbi
      · intro k
        show cacheA.allocOracle k = true
        rw [hfro]
        exact halloc k
      · simp only [interpretNext, cachedExec, hintr, eq_true hmiss, if_pos True.intro, hfc,
          hb0, and_false, if_neg not_false, eq_true hreb,
          if_pos (rfl : (true : Bool) = true), Bool.not_true, Bool.false_eq_true, false_or, true_and,
          or_false]
        rw [getD_set_self _ _ _ hbi]
      · simp only [executeCachedBurstNoSH2Cache, hintr, hrem0, eq_true hmiss,
          if_pos True.intro, hfc, hb0, hz, and_false, if_neg not_false, eq_true hreb,
          if_pos (rfl : (true : Bool) = true), Bool.not_true, Bool.false_eq_true, false_or, true_and,
          or_false]
    · -- miss + no rebuild (fresh block already matching)
      have hcnt : ¬((cacheA.blocks.getD bi {}).instructionCount ≤ 0) := fun h => hreb (Or.inr h)
      have hx : ¬((cacheA.blocks.getD bi {}).instructionCount = 0 ∨
          (cacheA.blocks.getD bi {}).startPC ≠ s.core.pc ∨
          (cacheA.blocks.getD bi {}).startDelaySlot ≠ s.core.delaySlot ∨
          (cacheA.blocks.getD bi {}).busPageGeneration ≠
            cacheA.pageGenerations (cacheA.blocks.getD bi {}).startBusPage) :=
        fun h => hreb (Or.inl h)
      have hz : ((cacheA.blocks.getD bi {}).instructionCount = 0 ∨
          (cacheA.blocks.getD bi {}).instructionCount ≤ 0) = False :=
        eq_false (by rintro (h | h) <;> omega)
      have hnorm : normCache env s =
          ({ core := s.core
             cache :=
              { cacheA with
                cursor :=
                  { blockIndex := bi, instructionIndex := 0, expectedPC := s.core.pc,
                    expectedDelaySlot := s.core.delaySlot, valid := true } } }, true) := by
        simp only [normCache, eq_true hmiss, if_pos True.intro, hfc, hb0, and_false,
          if_neg not_false, eq_false hreb, if_pos (rfl : (true : Bool) = true), Bool.not_true,
          Bool.false_eq_true, false_or, true_and, or_false]
      rw [hnorm]
      refine ⟨rfl, rfl, ⟨rfl, hbi, rfl, rfl, ?_, ?_⟩, ⟨?_, hblocksA, ?_, ?_⟩, ?_, ?_⟩
      · show 0 < (cacheA.blocks.getD bi {}).instructionCount
        omega
      · rintro ⟨-, h⟩
        exact hx h
      · exact chainInv_of_eq _ _ rfl rfl rfl hchainA
      · intro _
        exact ⟨hbi, fun h0 => absurd rfl h0⟩
      · intro k
        show cacheA.allocOracle k = true
        rw [hfro]
        exact halloc k
      · simp only [interpretNext, cachedExec, hintr, eq_true hmiss, if_pos True.intro, hfc,
          hb0, and_false, if_neg not_false, eq_false hreb,
          if_pos (rfl : (true : Bool) = true), Bool.not_true, Bool.false_eq_true, false_or, true_and,
          or_false]
      · simp only [executeCachedBurstNoSH2Cache, hintr, hrem0, eq_true hmiss,
          if_pos True.intro, hfc, hb0, hz, and_false, if_neg not_false, eq_false hreb,
          if_pos (rfl : (true : Bool) = true), Bool.not_true, Bool.false_eq_true, false_or, true_and,
          or_false]
  · -- cursor hit
    have hvalid : s.cache.cursor.valid = true := by
      rcases hv : s.cache.cursor.valid with _ | _
      · exact absurd (Or.inl (by rw [hv]; rfl)) hmiss
      · rfl
    have hexp : s.cache.cursor.expectedPC = s.core.pc := by
      by_contra h
      exact hmiss (Or.inr (Or.inl h))
    have heds : s.cache.cursor.expectedDelaySlot = s.core.delaySlot := by
      by_contra h
      exact hmiss (Or.inr (Or.inr h))
    have hbi : s.cache.cursor.blockIndex < s.cache.blocks.length := (hcursor hvalid).1
    have hb0 : (s.cache.blocks.length ≤ s.cache.cursor.blockIndex) = False :=
      eq_false (by omega)
    by_cases hreb : ((s.cache.cursor.instructionIndex = 0 ∧
        ((s.cache.blocks.getD s.cache.cursor.blockIndex {}).instructionCount = 0 ∨
          (s.cache.blocks.getD s.cache.cursor.blockIndex {}).startPC ≠ s.core.pc ∨
          (s.cache.blocks.getD s.cache.cursor.blockIndex {}).startDelaySlot ≠
            s.core.delaySlot ∨
          (s.cache.blocks.getD s.cache.cursor.blockIndex {}).busPageGeneration ≠
            s.cache.pageGenerations
              (s.cache.blocks.getD s.cache.cursor.blockIndex {}).startBusPage)) ∨
      (s.cache.blocks.getD s.cache.cursor.blockIndex {}).instructionCount ≤
        s.cache.cursor.instructionIndex)
    · -- hit + rebuild
      obtain ⟨f1, f2, f3, f4, f5, f6, f7, f8, f9⟩ :=
        buildCachedBlock_facts env.peek16 env.decode s.cache.pageGenerations
          (s.cache.blocks.getD s.cache.cursor.blockIndex {}) s.core.pc s.core.delaySlot
          env.memAccess henv.1
      have hz : ((buildCachedBlock env.peek16 env.decode s.cache.pageGenerations
            (s.cache.blocks.getD s.cache.cursor.blockIndex {}) s.core.pc
            s.core.delaySlot).instructionCount = 0 ∨
          (buildCachedBlock env.peek16 env.decode s.cache.pageGenerations
            (s.cache.blocks.getD s.cache.cursor.blockIndex {}) s.core.pc
            s.core.delaySlot).instructionCount ≤ 0) = False :=
        eq_false (by rintro (h | h) <;> omega)
      have hnorm : normCache env s =
          ({ core := s.core
             cache :=
              { s.cache with
                blocks := s.cache.blocks.set s.cache.cursor.blockIndex
                  (buildCachedBlock env.peek16 env.decode s.cache.pageGenerations
                    (s.cache.blocks.getD s.cache.cursor.blockIndex {}) s.core.pc
                    s.core.delaySlot)
                cursor := { s.cache.cursor with instructionIndex := 0 } } }, true) := by
        simp only [normCache, eq_false hmiss, if_neg not_false, hb0, and_false, eq_true hreb,
          if_pos True.intro, if_pos (rfl : (true : Bool) = true), Bool.not_true,
          Bool.false_eq_true, false_or, true_and, or_false]
      rw [hnorm]
      refine ⟨rfl, rfl, ⟨hvalid, ?_, hexp, heds, ?_, ?_⟩, ⟨?_, ?_, ?_, ?_⟩, ?_, ?_⟩
      · show s.cache.cursor.blockIndex < (s.cache.blocks.set s.cache.cursor.blockIndex _).length
        rw [List.length_set]
        exact hbi
      · show 0 < ((s.cache.blocks.set s.cache.cursor.blockIndex _).getD
            s.cache.cursor.blockIndex {}).instructionCount
        rw [getD_set_self _ _ _ hbi]
        omega
      · rintro ⟨-, hx⟩
        rw [getD_set_self _ _ _ hbi] at hx
        rcases hx with h | h | h | h
        · omega
        · exact h f5
        · exact h f6
        · rw [f7, f8] at h
          exact h rfl
      · exact chainInv_of_eq _ _ rfl rfl rfl
          (chainInv_set s.cache s.cache.cursor.blockIndex _ hchain hbi f9)
      · intro b hb
        rcases List.mem_or_eq_of_mem_set hb with h | h
        · exact hblocks b h
        · rw [h]
          exact blockSafe_build _ _ _ _ _ _ _ henv.1
      · intro _
        refine ⟨?_, fun h0 => absurd rfl h0⟩
        show s.cache.cursor.blockIndex < (s.cache.blocks.set s.cache.cursor.blockIndex _).length
        rw [List.length_set]
        exact hbi
      · exact halloc
      · simp only [interpretNext, cachedExec, hintr, eq_false hmiss, if_neg not_false, hb0,
          and_false, eq_true hreb, if_pos True.intro, if_pos (rfl : (true : Bool) = true),
          Bool.not_true, Bool.false_eq_true, false_or, or_false]
        rw [getD_set_self _ _ _ hbi]
      · simp only [executeCachedBurstNoSH2Cache, hintr, hrem0, eq_false hmiss,
          if_neg not_false, hb0, hz, and_false, eq_true hreb, if_pos True.intro,
          if_pos (rfl : (true : Bool) = true), Bool.not_true, Bool.false_eq_true, false_or, true_and,
          or_false]
    · -- hit + no rebuild: the state is already in sync
      have hcnt : ¬((s.cache.blocks.getD s.cache.cursor.blockIndex {}).instructionCount ≤
          s.cache.cursor.instructionIndex) := fun h => hreb (Or.inr h)
      have hE : ¬(s.cache.cursor.instructionIndex = 0 ∧
          ((s.cache.blocks.getD s.cache.cursor.blockIndex {}).instructionCount = 0 ∨
            (s.cache.blocks.getD s.cache.cursor.blockIndex {}).startPC ≠ s.core.pc ∨
            (s.cache.blocks.getD s.cache.cursor.blockIndex {}).startDelaySlot ≠
              s.core.delaySlot ∨
            (s.cache.blocks.getD s.cache.cursor.blockIndex {}).busPageGeneration ≠
              s.cache.pageGenerations
                (s.cache.blocks.getD s.cache.cursor.blockIndex {}).startBusPage)) :=
        fun h => hreb (Or.inl h)
      have hsync : inSync s := ⟨hvalid, hbi, hexp, heds, by omega, hE⟩
      have hz : ((s.cache.blocks.getD s.cache.cursor.blockIndex {}).instructionCount = 0 ∨
          (s.cache.blocks.getD s.cache.cursor.blockIndex {}).instructionCount ≤
            s.cache.cursor.instructionIndex) = False :=
        eq_false (by rintro (h | h) <;> omega)
      have hnorm : normCache env s = (s, true) := by
        simp only [normCache, eq_false hmiss, if_neg not_false, hb0, and_false,
          eq_false hreb, if_pos (rfl : (true : Bool) = true), if_pos True.intro,
          Bool.not_true, Bool.false_eq_true, false_or, true_and, or_false]
      rw [hnorm]
      refine ⟨rfl, rfl, hsync, ⟨hchain, hblocks, hcursor, halloc⟩, ?_, ?_⟩
      · exact interpretNext_inSync env s hsync hintr
      · simp only [executeCachedBurstNoSH2Cache, hintr, hrem0, eq_false hmiss,
          if_neg not_false, hb0, hz, and_false, eq_false hreb,
          if_pos (rfl : (true : Bool) = true), Bool.not_true, Bool.false_eq_true, false_or, true_and,
          or_false]

lemma getD_mem (l : List CachedBlock) (i : Nat) (h : i < l.length) : l.getD i {} ∈ l := by
  have : l.getD i {} = l.get ⟨i, h⟩ := by
    simp [List.getD_eq_getElem?_getD, List.getElem?_eq_getElem h]
  rw [this]
  exact l.get_mem i h

lemma runSteps_succ {δ : Type} (env : Sh2Env δ) (n : Nat) (s : Sh2 δ) :
    runSteps env (n + 1) s =
      ((runSteps env n (interpretNext env s).1).1,
        (interpretNext env s).2 + (runSteps env n (interpretNext env s).1).2) := rfl

lemma runSteps_zero {δ : Type} (env : Sh2Env δ) (s : Sh2 δ) : runSteps env 0 s = (s, 0) := rfl

/-- Every `InterpretNext` invocation consumes at least one cycle when
opcode handlers do (`EnterException` adds its own cycles on top of one). -/
lemma interpretNext_cycles_pos {δ : Type} (env : Sh2Env δ)
    (hd : ∀ o i c, 1 ≤ (env.dispatch o i c).2) (s : Sh2 δ) :
    1 ≤ (interpretNext env s).2 := by
  rcases hintr : s.core.intrPending with _ | _
  · rcases hfc : findOrCreateCachedBlock s.cache s.core.pc s.core.delaySlot with ⟨r, cacheA⟩
    simp only [interpretNext, hintr, Bool.false_eq_true, if_false, hfc]
    rcases r with _ | bi <;> split_ifs <;> exact hd _ _ _
  · simp only [interpretNext, hintr, if_true]
    omega

lemma runSteps_cycles_ge {δ : Type} (env : Sh2Env δ)
    (hd : ∀ o i c, 1 ≤ (env.dispatch o i c).2) :
    ∀ n s, n ≤ (runSteps env n s).2 := by
  intro n
  induction n with
  | zero => intro s; omega
  | succ k ih =>
    intro s
    rw [runSteps_succ]
    have h1 := interpretNext_cycles_pos env hd s
    have h2 := ih (interpretNext env s).1
    omega

lemma runSteps_add {δ : Type} (env : Sh2Env δ) :
    ∀ m n (s : Sh2 δ),
      runSteps env (m + n) s =
        ((runSteps env n (runSteps env m s).1).1,
          (runSteps env m s).2 + (runSteps env n (runSteps env m s).1).2) := by
  intro m
  induction m with
  | zero =>
    intro n s
    rw [runSteps_zero]
    simp
  | succ k ih =>
    intro n s
    have hkn : k + 1 + n = (k + n) + 1 := by omega
    rw [hkn, runSteps_succ, runSteps_succ, ih n (interpretNext env s).1]
    simp [Nat.add_assoc]

lemma runSteps_congr_head {δ : Type} (env : Sh2Env δ) (s t : Sh2 δ)
    (h : interpretNext env s = interpretNext env t) :
    ∀ j, 1 ≤ j → runSteps env j s = runSteps env j t := by
  intro j hj
  rcases j with _ | k
  · omega
  · rw [runSteps_succ, runSteps_succ, h]

set_option maxHeartbeats 3200000 in
/-- The burst retirement loop from an in-sync safe state retires exactly
a prefix of the single-step execution: the final state is the `j`-step
state, the retired cycles are the `j`-step cycle total, progress is made
iff `j > 0`, every proper prefix fits in the cycle budget, the loop
always executes at least one instruction when budget and op cap allow,
and safety is preserved. -/
lemma burstLoop_sim {δ : Type} (env : Sh2Env δ) (henv : envSafe env) :
    ∀ fuel (t : Sh2 δ) (remaining : Nat) (res : BurstExecResult),
      inSync t → burstSafe env t → t.core.intrPending = false →
      ∃ j, (burstLoop env fuel t remaining res).1 = (runSteps env j t).1 ∧
        (burstLoop env fuel t remaining res).2.cyclesRetired =
          res.cyclesRetired + (runSteps env j t).2 ∧
        (burstLoop env fuel t remaining res).2.madeProgress =
          (res.madeProgress || decide (0 < j)) ∧
        (∀ m, m < j → res.cyclesRetired + (runSteps env m t).2 < remaining) ∧
        (res.cyclesRetired < remaining → res.opsRetired < kCachedBurstMaxOpsP91 →
          0 < fuel → 0 < j) ∧
        burstSafe env (runSteps env j t).1 := by
  intro fuel
  induction fuel with
  | zero =>
    intro t remaining res hsync hsafe hintr
    refine ⟨0, rfl, by simp [burstLoop, runSteps_zero], by simp [burstLoop], by omega, ?_,
      hsafe⟩
    intro _ _ h
    omega
  | succ f ih =>
    intro t remaining res hsync hsafe hintr
    obtain ⟨s1v, s1bi, s1pc, s1ds, s1lt, s1entry⟩ := hsync
    by_cases hc1 : remaining ≤ res.cyclesRetired
    · have hL : burstLoop env (f + 1) t remaining res =
          (t, { res with stopReason := some BurstStopReason.cycleBudget }) := by
        simp only [burstLoop, eq_true hc1, if_pos True.intro]
      rw [hL]
      refine ⟨0, rfl, by simp [runSteps_zero], by simp, by omega, ?_, hsafe⟩
      intro h _ _
      omega
    · by_cases hc2 : kCachedBurstMaxOpsP91 ≤ res.opsRetired
      · have hL : burstLoop env (f + 1) t remaining res =
            (t, { res with stopReason := some BurstStopReason.opCap }) := by
          simp only [burstLoop, eq_false hc1, if_neg not_false, eq_true hc2, if_pos True.intro]
        rw [hL]
        refine ⟨0, rfl, by simp [runSteps_zero], by simp, by omega, ?_, hsafe⟩
        intro _ h _
        omega
      · -- the loop executes the current instruction
        have hb3 : ((!t.cache.cursor.valid) = true ∨
            t.cache.blocks.length ≤ t.cache.cursor.blockIndex) = False := by
          refine eq_false ?_
          rintro (h | h)
          · rw [s1v] at h
            simp at h
          · omega
        have hb4 : ((t.cache.blocks.getD t.cache.cursor.blockIndex {}).instructionCount ≤
            t.cache.cursor.instructionIndex) = False := eq_false (by omega)
        have hb5 : (t.cache.cursor.expectedPC ≠ t.core.pc ∨
            t.cache.cursor.expectedDelaySlot ≠ t.core.delaySlot) = False := by
          refine eq_false ?_
          rintro (h | h)
          · exact h s1pc
          · exact h s1ds
        have hcurr : t.cache.blocks.getD t.cache.cursor.blockIndex {} ∈ t.cache.blocks :=
          getD_mem _ _ s1bi
        have hbs := hsafe.2.1 _ hcurr
        have hmem : env.memAccess ((t.cache.blocks.getD t.cache.cursor.blockIndex
            {}).instructions t.cache.cursor.instructionIndex) = false :=
          hbs.1 _ s1lt
        have hstep0 : interpretNext env t = cachedExec env t :=
          interpretNext_inSync env t ⟨s1v, s1bi, s1pc, s1ds, s1lt, s1entry⟩ hintr
        by_cases hk : t.cache.cursor.instructionIndex + 1 <
            (t.cache.blocks.getD t.cache.cursor.blockIndex {}).instructionCount
        · -- mid-block: the cursor advances
          have hds0 : t.core.delaySlot = false := by
            rcases Nat.eq_zero_or_pos t.cache.cursor.instructionIndex with h0 | h0
            · have hnx : ¬((t.cache.blocks.getD t.cache.cursor.blockIndex
                  {}).instructionCount = 0 ∨
                  (t.cache.blocks.getD t.cache.cursor.blockIndex {}).startPC ≠ t.core.pc ∨
                  (t.cache.blocks.getD t.cache.cursor.blockIndex {}).startDelaySlot ≠
                    t.core.delaySlot ∨
                  (t.cache.blocks.getD t.cache.cursor.blockIndex {}).busPageGeneration ≠
                    t.cache.pageGenerations
                      (t.cache.blocks.getD t.cache.cursor.blockIndex {}).startBusPage) :=
                fun hx => s1entry ⟨h0, hx⟩
              push_neg at hnx
              have hsd : (t.cache.blocks.getD t.cache.cursor.blockIndex
                  {}).startDelaySlot = t.core.delaySlot := hnx.2.2.1
              have hsdf := hbs.2.2 (by omega)
              rw [← hsd, hsdf]
            · have := (hsafe.2.2.1 s1v).2 (by omega)
              rw [← s1ds, this]
          have hnb : isCachedBlockBarrier ((t.cache.blocks.getD t.cache.cursor.blockIndex
              {}).decodedOpcodes t.cache.cursor.instructionIndex) = false :=
            hbs.2.1 _ hk
          have hH2 := henv.2.2 _ ((t.cache.blocks.getD t.cache.cursor.blockIndex
            {}).instructions t.cache.cursor.instructionIndex) t.core hds0 hnb
          have hstep2 : interpretNext env t =
              ({ core := (env.dispatch ((t.cache.blocks.getD t.cache.cursor.blockIndex
                    {}).decodedOpcodes t.cache.cursor.instructionIndex)
                    ((t.cache.blocks.getD t.cache.cursor.blockIndex {}).instructions
                      t.cache.cursor.instructionIndex) t.core).1
                 cache :=
                  { t.cache with
                    cursor :=
                      { t.cache.cursor with
                        instructionIndex := t.cache.cursor.instructionIndex + 1
                        expectedPC := u32 (t.core.pc + 2)
                        expectedDelaySlot := false } } },
                (env.dispatch ((t.cache.blocks.getD t.cache.cursor.blockIndex
                  {}).decodedOpcodes t.cache.cursor.instructionIndex)
                  ((t.cache.blocks.getD t.cache.cursor.blockIndex {}).instructions
                    t.cache.cursor.instructionIndex) t.core).2) := by
            rw [hstep0]
            simp only [cachedExec, eq_true hk, if_pos True.intro]
          have hsync1 : inSync (interpretNext env t).1 := by
            rw [hstep2]
            refine ⟨s1v, s1bi, hH2.1.symm, hH2.2.symm, hk, ?_⟩
            rintro ⟨h0, -⟩
            have h0x : t.cache.cursor.instructionIndex + 1 = 0 := h0
            omega
          have hsafe1 : burstSafe env (interpretNext env t).1 := by
            rw [hstep2]
            refine ⟨chainInv_of_eq _ _ rfl rfl rfl hsafe.1, hsafe.2.1, ?_, hsafe.2.2.2⟩
            intro _
            exact ⟨s1bi, fun _ => rfl⟩
          by_cases hi8 : (env.dispatch ((t.cache.blocks.getD t.cache.cursor.blockIndex
              {}).decodedOpcodes t.cache.cursor.instructionIndex)
              ((t.cache.blocks.getD t.cache.cursor.blockIndex {}).instructions
                t.cache.cursor.instructionIndex) t.core).1.intrPending = true
          · -- the handler raised an interrupt: the loop stops at this boundary
            have hL : burstLoop env (f + 1) t remaining res =
                ((interpretNext env t).1,
                  { cyclesRetired := res.cyclesRetired + (interpretNext env t).2
                    opsRetired := res.opsRetired + 1
                    madeProgress := true
                    stopReason := some BurstStopReason.interruptPending }) := by
              simp only [burstLoop, eq_false hc1, eq_false hc2, hb3, hb4, hb5, hmem,
                Bool.false_eq_true, if_neg not_false, eq_true hk, if_pos True.intro, hi8,
                if_pos (rfl : (true : Bool) = true)]
              rw [hstep2]
            rw [hL]
            refine ⟨1, rfl, rfl, by simp, ?_, fun _ _ _ => by omega, ?_⟩
            · intro m hm
              have hm0 : m = 0 := by omega
              subst hm0
              rw [runSteps_zero]
              omega
            · show burstSafe env (interpretNext env t).1
              exact hsafe1
          · -- continue with the advanced cursor
            have hi8f : (env.dispatch ((t.cache.blocks.getD t.cache.cursor.blockIndex
                {}).decodedOpcodes t.cache.cursor.instructionIndex)
                ((t.cache.blocks.getD t.cache.cursor.blockIndex {}).instructions
                  t.cache.cursor.instructionIndex) t.core).1.intrPending = false := by
              rcases h : (env.dispatch ((t.cache.blocks.getD t.cache.cursor.blockIndex
                  {}).decodedOpcodes t.cache.cursor.instructionIndex)
                  ((t.cache.blocks.getD t.cache.cursor.blockIndex {}).instructions
                    t.cache.cursor.instructionIndex) t.core).1.intrPending with _ | _
              · rfl
              · exact absurd h hi8
            have hint1 : (interpretNext env t).1.core.intrPending = false := by
              rw [hstep2]
              exact hi8f
            obtain ⟨j', ihs1, ihc, ihp, ihmin, ihpos, ihsafe⟩ :=
              ih (interpretNext env t).1 remaining
                { cyclesRetired := res.cyclesRetired + (interpretNext env t).2
                  opsRetired := res.opsRetired + 1
                  madeProgress := true
                  stopReason := res.stopReason } hsync1 hsafe1 hint1
            have hL : burstLoop env (f + 1) t remaining res =
                burstLoop env f (interpretNext env t).1 remaining
                  { cyclesRetired := res.cyclesRetired + (interpretNext env t).2
                    opsRetired := res.opsRetired + 1
                    madeProgress := true
                    stopReason := res.stopReason } := by
              simp only [burstLoop, eq_false hc1, eq_false hc2, hb3, hb4, hb5, hmem,
                Bool.false_eq_true, if_neg not_false, eq_true hk, if_pos True.intro, hi8f]
              rw [hstep2]
            have hcomp : ∀ m, runSteps env (m + 1) t =
                ((runSteps env m (interpretNext env t).1).1,
                  (interpretNext env t).2 + (runSteps env m (interpretNext env t).1).2) :=
              fun m => runSteps_succ env m t
            rw [hL]
            refine ⟨j' + 1, ?_, ?_, ?_, ?_, fun _ _ _ => by omega, ?_⟩
            · rw [ihs1, hcomp j']
            · rw [ihc, hcomp j']
              show res.cyclesRetired + (interpretNext env t).2 +
                  (runSteps env j' (interpretNext env t).1).2 =
                res.cyclesRetired + ((interpretNext env t).2 +
                  (runSteps env j' (interpretNext env t).1).2)
              omega
            · rw [ihp]
              show (true || decide (0 < j')) = (res.madeProgress || decide (0 < j' + 1))
              simp
            · intro m hm
              rcases m with _ | m'
              · rw [runSteps_zero]
                omega
              · have h' := ihmin m' (by omega)
                have h'' : res.cyclesRetired + (interpretNext env t).2 +
                    (runSteps env m' (interpretNext env t).1).2 < remaining := h'
                rw [hcomp m']
                show res.cyclesRetired + ((interpretNext env t).2 +
                    (runSteps env m' (interpretNext env t).1).2) < remaining
                omega
            · rw [hcomp j']
              exact ihsafe
        · -- final instruction of the block: execute and stop at block end
          have hstep2 : interpretNext env t =
              ({ core := (env.dispatch ((t.cache.blocks.getD t.cache.cursor.blockIndex
                    {}).decodedOpcodes t.cache.cursor.instructionIndex)
                    ((t.cache.blocks.getD t.cache.cursor.blockIndex {}).instructions
                      t.cache.cursor.instructionIndex) t.core).1
                 cache :=
                  { t.cache with
                    cursor := { t.cache.cursor with valid := false } } },
                (env.dispatch ((t.cache.blocks.getD t.cache.cursor.blockIndex
                  {}).decodedOpcodes t.cache.cursor.instructionIndex)
                  ((t.cache.blocks.getD t.cache.cursor.blockIndex {}).instructions
                    t.cache.cursor.instructionIndex) t.core).2) := by
            rw [hstep0]
            simp only [cachedExec, eq_false hk, if_neg not_false]
          have hL : burstLoop env (f + 1) t remaining res =
              ((interpretNext env t).1,
                { cyclesRetired := res.cyclesRetired + (interpretNext env t).2
                  opsRetired := res.opsRetired + 1
                  madeProgress := true
                  stopReason := some BurstStopReason.blockEnd }) := by
            simp only [burstLoop, eq_false hc1, eq_false hc2, hb3, hb4, hb5, hmem,
              Bool.false_eq_true, if_neg not_false, eq_false hk]
            rw [hstep2]
          rw [hL]
          refine ⟨1, rfl, rfl, by simp, ?_, fun _ _ _ => by omega, ?_⟩
          · intro m hm
            have hm0 : m = 0 := by omega
            subst hm0
            rw [runSteps_zero]
            omega
          · show burstSafe env (interpretNext env t).1
            rw [hstep2]
            refine ⟨chainInv_of_eq _ _ rfl rfl rfl hsafe.1, hsafe.2.1, ?_, hsafe.2.2.2⟩
            intro hv
            exact absurd hv (by simp)

lemma runSteps_snoc {δ : Type} (env : Sh2Env δ) (k : Nat) (s : Sh2 δ) :
    runSteps env (k + 1) s =
      ((interpretNext env (runSteps env k s).1).1,
        (runSteps env k s).2 + (interpretNext env (runSteps env k s).1).2) := by
  rw [runSteps_add env k 1 s]
  rfl

lemma runSteps_le_of_le {δ : Type} (env : Sh2Env δ) (m n : Nat) (s : Sh2 δ) (h : m ≤ n) :
    (runSteps env m s).2 ≤ (runSteps env n s).2 := by
  have h1 := runSteps_add env m (n - m) s
  have h2 : m + (n - m) = n := by omega
  rw [h2] at h1
  rw [h1]
  omega

lemma interpretNext_service_cache {δ : Type} (env : Sh2Env δ) (s : Sh2 δ)
    (h : s.core.intrPending = true) :
    (interpretNext env s).1.cache = s.cache := by
  simp only [interpretNext, h, if_pos (rfl : (true : Bool) = true), if_pos True.intro]

set_option maxHeartbeats 3200000 in
/-- The interpretation loop of `Advance<false, false, true>` with burst
enabled, run with the exact cycle budget of `n` single steps from the
`k`-step state, lands exactly on the `n`-step state having executed
exactly that budget. -/
lemma advanceLoop_sim {δ : Type} (env : Sh2Env δ) (henv : envSafe env) (base : Sh2 δ)
    (n : Nat) :
    ∀ fuel k, k ≤ n → burstSafe env (runSteps env k base).1 →
      (runSteps env n base).2 - (runSteps env k base).2 < fuel →
      advanceLoop env true ((runSteps env n base).2) fuel (runSteps env k base).1
          ((runSteps env k base).2) =
        ((runSteps env n base).1, (runSteps env n base).2) := by
  intro fuel
  induction fuel with
  | zero =>
    intro k hk hs hf
    omega
  | succ f ih =>
    intro k hk hs hf
    have hd := henv.2.1
    by_cases hend : (runSteps env n base).2 ≤ (runSteps env k base).2
    · have hkn : k = n := by
        by_contra hne
        have hklt : k < n := by omega
        have h1 := runSteps_add env k (n - k) base
        have h2 : k + (n - k) = n := by omega
        rw [h2] at h1
        have h3 := runSteps_cycles_ge env hd (n - k) (runSteps env k base).1
        rw [h1] at hend
        simp only at hend
        omega
      subst hkn
      simp only [advanceLoop, if_pos hend]
    · have hlt : (runSteps env k base).2 < (runSteps env n base).2 := by omega
      have hkn : k < n := by
        by_contra h
        have hge : n ≤ k := by omega
        have := runSteps_le_of_le env n k base hge
        omega
      rcases hintrc : (runSteps env k base).1.core.intrPending with _ | _
      · -- no pending interrupt: take the burst path
        obtain ⟨husable, hcore, hsyncN, hsafeN, hstepN, hburstN⟩ :=
          normCache_spec env (runSteps env k base).1
            ((runSteps env n base).2 - (runSteps env k base).2) henv hs hintrc
            (by omega)
        have hintrN : (normCache env (runSteps env k base).1).1.core.intrPending = false := by
          rw [hcore]
          exact hintrc
        obtain ⟨j, hj1, hj2, hj3, hjmin, hjpos, hjsafe⟩ :=
          burstLoop_sim env henv (kCachedBurstMaxOpsP91 + 1)
            (normCache env (runSteps env k base).1).1
            ((runSteps env n base).2 - (runSteps env k base).2) {} hsyncN hsafeN hintrN
        have hjpos' : 0 < j := by
          refine hjpos ?_ ?_ (by omega)
          · show (0 : Nat) < (runSteps env n base).2 - (runSteps env k base).2
            omega
          · show (0 : Nat) < kCachedBurstMaxOpsP91
            norm_num [kCachedBurstMaxOpsP91]
        have hhead : interpretNext env (runSteps env k base).1 =
            interpretNext env (normCache env (runSteps env k base).1).1 := by
          rw [hstepN]
          exact (interpretNext_inSync env _ hsyncN hintrN).symm
        have hjeq : runSteps env j (normCache env (runSteps env k base).1).1 =
            runSteps env j (runSteps env k base).1 :=
          (runSteps_congr_head env (runSteps env k base).1
            (normCache env (runSteps env k base).1).1 hhead j (by omega)).symm
        have hcompj := runSteps_add env k j base
        have hprog : (burstLoop env (kCachedBurstMaxOpsP91 + 1)
            (normCache env (runSteps env k base).1).1
            ((runSteps env n base).2 - (runSteps env k base).2) {}).2.madeProgress = true := by
          rw [hj3]
          simp [hjpos']
        have hkj : k + j ≤ n := by
          by_contra hgt
          have hm1 := hjmin (j - 1) (by omega)
          have hm1' : (runSteps env (j - 1)
              (normCache env (runSteps env k base).1).1).2 <
              (runSteps env n base).2 - (runSteps env k base).2 := by
            simpa using hm1
          have hcomp1 := runSteps_add env k (j - 1) base
          have hmono := runSteps_le_of_le env n (k + (j - 1)) base (by omega)
          rcases Nat.eq_or_lt_of_le hjpos' with h1 | h1
          · rw [show j - 1 = 0 from by omega, runSteps_zero] at hm1'
            simp only at hm1'
            omega
          · have hj1ge : 1 ≤ j - 1 := by omega
            rw [runSteps_congr_head env (runSteps env k base).1
              (normCache env (runSteps env k base).1).1 hhead (j - 1) hj1ge] at hcomp1
            rw [hcomp1] at hmono
            simp only at hmono
            omega
        have hstate : (burstLoop env (kCachedBurstMaxOpsP91 + 1)
            (normCache env (runSteps env k base).1).1
            ((runSteps env n base).2 - (runSteps env k base).2) {}).1 =
            (runSteps env (k + j) base).1 := by
          rw [hj1, hjeq, hcompj]
        have hcyc : (runSteps env k base).2 + (burstLoop env (kCachedBurstMaxOpsP91 + 1)
            (normCache env (runSteps env k base).1).1
            ((runSteps env n base).2 - (runSteps env k base).2) {}).2.cyclesRetired =
            (runSteps env (k + j) base).2 := by
          rw [hj2, hjeq, hcompj]
          simp
        have hsafekj : burstSafe env (runSteps env (k + j) base).1 := by
          rw [hcompj]
          have := hjsafe
          rw [hjeq] at this
          exact this
        have hcycge := runSteps_cycles_ge env hd j (runSteps env k base).1
        have hfkj : (runSteps env n base).2 - (runSteps env (k + j) base).2 < f := by
          have : (runSteps env (k + j) base).2 =
              (runSteps env k base).2 + (runSteps env j (runSteps env k base).1).2 := by
            rw [hcompj]
          omega
        simp only [advanceLoop]
        rw [if_neg (show ¬((runSteps env n base).2 ≤ (runSteps env k base).2) from by omega)]
        rw [if_pos True.intro]
        rw [hburstN, hprog]
        rw [if_pos (rfl : (true : Bool) = true)]
        rw [hstate, hcyc]
        exact ih (k + j) hkj hsafekj hfkj
      · -- pending interrupt: the burst stops at once and one step services it
        have hB : executeCachedBurstNoSH2Cache env (runSteps env k base).1
            ((runSteps env n base).2 - (runSteps env k base).2) =
            ((runSteps env k base).1,
              { stopReason := some BurstStopReason.interruptPending }) := by
          simp only [executeCachedBurstNoSH2Cache,
            eq_false (show ¬((runSteps env n base).2 - (runSteps env k base).2 = 0)
              from by omega),
            if_neg not_false, hintrc, if_pos (rfl : (true : Bool) = true),
            if_pos True.intro]
        have hsucc := runSteps_snoc env k base
        have hkn1 : k + 1 ≤ n := by omega
        have hcacheeq : (runSteps env (k + 1) base).1.cache = (runSteps env k base).1.cache := by
          rw [hsucc]
          exact interpretNext_service_cache env _ hintrc
        have hsafe1 : burstSafe env (runSteps env (k + 1) base).1 :=
          burstSafe_of_cache_eq env _ _ hcacheeq hs
        have hstep1 := interpretNext_cycles_pos env hd (runSteps env k base).1
        have hf1 : (runSteps env n base).2 - (runSteps env (k + 1) base).2 < f := by
          rw [hsucc]
          simp only
          omega
        have hstate : (interpretNext env (runSteps env k base).1).1 =
            (runSteps env (k + 1) base).1 := by
          rw [hsucc]
        have hcyc : (runSteps env k base).2 +
            ({ stopReason := some BurstStopReason.interruptPending } :
              BurstExecResult).cyclesRetired +
            (interpretNext env (runSteps env k base).1).2 =
            (runSteps env (k + 1) base).2 := by
          rw [hsucc]
          simp
        simp only [advanceLoop]
        rw [if_neg (show ¬((runSteps env n base).2 ≤ (runSteps env k base).2) from by omega)]
        rw [if_pos True.intro]
        rw [hB]
        rw [if_neg (show ¬(({ stopReason := some BurstStopReason.interruptPending } :
          BurstExecResult).madeProgress = true) from by simp)]
        rw [hstate, hcyc]
        exact ih (k + 1) hkn1 hsafe1 hf1

/-- C1: for every program whose instructions the decode table does not
flag as touching memory (and whose handlers fall through to `PC += 2`
costing at least one cycle outside delay slots), one
`Advance<false, false, true>` call (debug off, on-chip cache emulation
off, block cache on, burst enabled) over the exact total cycle budget of
`n` single `Step` calls produces exactly the same machine state — core
(PC, delay-slot state, the opaque payload holding general registers and
SR) and block cache — and consumes exactly that many cycles; since the
equality holds for every `n`, burst stops at exactly the instruction
boundary where the single-step path would service a pending interrupt. -/
theorem c1_burst_step_parity {δ : Type} (env : Sh2Env δ) (s : Sh2 δ) (n : Nat)
    (henv : envSafe env) (hsafe : burstSafe env s) (hsleep : s.core.sleep = false) :
    advance env true ((runSteps env n s).2) 0 s =
      ((runSteps env n s).1, (runSteps env n s).2) := by
  have h0 := advanceLoop_sim env henv s n ((runSteps env n s).2 + 1) 0 (by omega)
    hsafe
    (by show (runSteps env n s).2 - 0 < (runSteps env n s).2 + 1; omega)
  simp only [advance, hsleep, Bool.false_eq_true, if_neg not_false]
  exact h0

/-- An opcode-handler environment realizing straight-line execution
(`PC += 2`, one cycle, no memory flags), used to instantiate theorems at
concrete inputs. -/
def parityEnv : Sh2Env Unit where
  peek16 := fun a => a % 7
  fetch16 := fun a => a % 7
  decode := fun _ _ => OpcodeType.other 0
  memAccess := fun _ => false
  dispatch := fun _ _ c => ({ c with pc := u32 (c.pc + 2), delaySlot := false }, 1)
  service := fun c => (c, 5)

/-- A concrete awake machine state with a fresh block cache, used to
instantiate theorems at concrete inputs. -/
def parityState : Sh2 Unit where
  core := { pc := 0x1000, delaySlot := false, intrPending := false, sleep := false, data := () }
  cache := emptyCache

theorem c1_burst_step_parity_witness :
    envSafe parityEnv ∧ burstSafe parityEnv parityState ∧ parityState.core.sleep = false ∧
      advance parityEnv true ((runSteps parityEnv 3 parityState).2) 0 parityState =
        ((runSteps parityEnv 3 parityState).1, (runSteps parityEnv 3 parityState).2) := by
  have henv : envSafe parityEnv :=
    ⟨fun a => rfl, fun o i c => le_refl 1, fun o i c h1 h2 => ⟨rfl, rfl⟩⟩
  have hsafe : burstSafe parityEnv parityState := by
    refine ⟨emptyCache_chainInv, ?_, ?_, fun k => rfl⟩
    · intro b hb
      simp [parityState, emptyCache] at hb
    · intro hv
      simp [parityState, emptyCache] at hv
  exact ⟨henv, hsafe, rfl, c1_burst_step_parity parityEnv parityState 3 henv hsafe rfl⟩

end Ymir
